import Mathlib

/-!
Verification of the set-operation planner and append-relation machinery of
`src/backend/optimizer/prep/prepunion.c` (TBase), via a shallow embedding.

External collaborators (cost estimation, catalog access, the subquery
planner) are modelled as abstract parameters, mirroring the interfaces the
source file consumes; the logic of `prepunion.c` itself is translated
directly.
-/

namespace PrepUnion

/-- Object identifier, as in the source (`Oid`). -/
abbrev Oid := Nat

/-- `InvalidOid` is 0. -/
def InvalidOid : Oid := 0

/-- OID of the `int4` type (used for the resjunk flag column). -/
def INT4OID : Oid := 23

/-- Planner errors raised by the embedded functions: `ereport` with
`ERRCODE_FEATURE_NOT_SUPPORTED`, or `elog(ERROR, ...)` internal errors. -/
inductive PgError where
  | featureNotSupported (msg : String)
  | internalError (msg : String)
deriving DecidableEq, Repr

/-- A `Var` node's fields (parse-tree variable reference). -/
structure VarM where
  varno : Nat
  varattno : Int
  vartype : Oid
  vartypmod : Int
  varcollid : Oid
  varlevelsup : Nat
  varnoold : Nat
deriving DecidableEq, Repr

/-- `makeVar`, which also sets `varnoold := varno`. -/
def makeVar (varno : Nat) (varattno : Int) (vartype : Oid) (vartypmod : Int)
    (varcollid : Oid) (varlevelsup : Nat) : VarM :=
  ⟨varno, varattno, vartype, vartypmod, varcollid, varlevelsup, varno⟩

/-- Expression trees, restricted to the node kinds `prepunion.c` builds or
inspects.  `coerceToCommon` stands for the external collaborator
`coerce_to_common_type` (parse_coerce.c, not part of this repository
sample); per the spec it inserts an implicit coercion to the target type. -/
inductive Expr where
  | var (v : VarM)
  | const (consttype : Oid) (consttypmod : Int) (constcollid : Oid) (constvalue : Int)
  | relabel (arg : Expr) (resulttype : Oid) (resulttypmod : Int) (resultcollid : Oid)
  | coerceToCommon (arg : Expr) (targettype : Oid)
  | convertRowtype (arg : Expr) (resulttype : Oid)
  | rowExpr (args : List (Option Expr)) (rowTypeid : Oid) (colnames : List String)

/-- `exprType` on the embedded expression nodes. -/
def exprType : Expr → Oid
  | .var v => v.vartype
  | .const t _ _ _ => t
  | .relabel _ t _ _ => t
  | .coerceToCommon _ t => t
  | .convertRowtype _ t => t
  | .rowExpr _ t _ => t

/-- `exprTypmod`.  Coercion and row-construction results are unconstrained. -/
def exprTypmod : Expr → Int
  | .var v => v.vartypmod
  | .const _ tm _ _ => tm
  | .relabel _ _ tm _ => tm
  | .coerceToCommon _ _ => -1
  | .convertRowtype _ _ => -1
  | .rowExpr _ _ _ => -1

/-- `exprCollation`.  A coercion produced by the external
`coerce_to_common_type` is modelled with no collation assigned (the source
notes `assign_expr_collations` never runs on generated nodes). -/
def exprCollation : Expr → Oid
  | .var v => v.varcollid
  | .const _ _ c _ => c
  | .relabel _ _ _ c => c
  | .coerceToCommon _ _ => InvalidOid
  | .convertRowtype _ _ => InvalidOid
  | .rowExpr _ _ _ => InvalidOid

/-- `IsA(expr, Const)`. -/
def Expr.isConst : Expr → Bool
  | .const _ _ _ _ => true
  | _ => false

/-- A target-list entry (`TargetEntry`). -/
structure TargetEntry where
  expr : Expr
  resno : Nat
  resname : String
  resjunk : Bool
  ressortgroupref : Nat

instance : Inhabited TargetEntry :=
  ⟨⟨.const 0 0 0 0, 0, "", false, 0⟩⟩

/-- `makeTargetEntry`: `ressortgroupref` starts at 0. -/
def makeTargetEntry (expr : Expr) (resno : Nat) (resname : String) (resjunk : Bool) :
    TargetEntry :=
  ⟨expr, resno, resname, resjunk, 0⟩

/-- One `SortGroupClause`.  Whether its operators support sorting/hashing is
recorded abstractly: `grouping_is_sortable`/`grouping_is_hashable` (tlist.c,
an external collaborator of this file) test exactly that per clause. -/
structure SortGroupClause where
  tleSortGroupRef : Nat
  sortable : Bool
  hashable : Bool
deriving DecidableEq, Repr

/-- Modelled from the spec: `grouping_is_sortable` (external, tlist.c) —
every grouping key supports sorting. -/
def grouping_is_sortable (gls : List SortGroupClause) : Bool :=
  gls.all (·.sortable)

/-- Modelled from the spec: `grouping_is_hashable` (external, tlist.c) —
every grouping key supports hashing. -/
def grouping_is_hashable (gls : List SortGroupClause) : Bool :=
  gls.all (·.hashable)

/-- Startup/total cost pair, the part of a dummy `Path` the cost
collaborators fill in. -/
structure Costs where
  startup : ℚ
  total : ℚ
deriving DecidableEq, Repr

/-- The fields of a `Path` that `choose_hashed_setop` reads from its input
path (costs, row estimate, and `pathtarget->width`). -/
structure PathInfo where
  startup_cost : ℚ
  total_cost : ℚ
  rows : ℚ
  width : Nat
deriving DecidableEq, Repr

/-- Abstract cost-model collaborators (costsize.c and friends):
`cost_agg`, `cost_sort`, `cost_group`, `compare_fractional_path_costs`,
and the costing performed by `create_append_path`/`create_pathtarget`. -/
structure CostModel where
  cost_agg : Nat → ℚ → ℚ → ℚ → ℚ → Costs
  cost_sort : ℚ → ℚ → Nat → Costs
  cost_group : Nat → ℚ → ℚ → ℚ → ℚ → Costs
  compare_fractional_path_costs : Costs → Costs → ℚ → Int
  append_info : List PathInfo → List TargetEntry → PathInfo

/-- Planner configuration read by `choose_hashed_setop`: the
`enable_hashagg` GUC, `work_mem` (in KB), and the platform constant
`SizeofMinimalTupleHeader`. -/
structure PlannerConfig where
  enable_hashagg : Bool
  work_mem : Int
  sizeofMinimalTupleHeader : Nat

/-- `MAXALIGN`: round up to the maximum alignment boundary (8 bytes). -/
def MAXALIGN (x : Nat) : Nat := ((x + 7) / 8) * 8

/-- `choose_hashed_setop` (prepunion.c:1006-1096): should a set operation
use hashing for duplicate elimination/grouping? -/
def choose_hashed_setop (cfg : PlannerConfig) (cm : CostModel)
    (tuple_fraction : ℚ) (groupClauses : List SortGroupClause)
    (input_path : PathInfo) (dNumGroups dNumOutputRows : ℚ)
    (construct : String) : Except PgError Bool :=
  let numGroupCols := groupClauses.length
  let can_sort := grouping_is_sortable groupClauses
  let can_hash := grouping_is_hashable groupClauses
  if can_hash && can_sort then
    -- we have a meaningful choice to make, continue ...
    if !cfg.enable_hashagg then .ok false
    else
      let hashentrysize :=
        MAXALIGN input_path.width + MAXALIGN cfg.sizeofMinimalTupleHeader
      if (hashentrysize : ℚ) * dNumGroups > (cfg.work_mem : ℚ) * 1024 then .ok false
      else
        let hashed_p := cm.cost_agg numGroupCols dNumGroups
          input_path.startup_cost input_path.total_cost input_path.rows
        let sorted_s := cm.cost_sort input_path.total_cost
          input_path.rows input_path.width
        let sorted_p := cm.cost_group numGroupCols dNumGroups
          sorted_s.startup sorted_s.total input_path.rows
        let tf := if tuple_fraction ≥ 1 then tuple_fraction / dNumOutputRows
                  else tuple_fraction
        if cm.compare_fractional_path_costs hashed_p sorted_p tf < 0 then
          .ok true
        else
          .ok false
  else if can_hash then .ok true
  else if can_sort then .ok false
  else .error (.featureNotSupported ("could not implement " ++ construct))

/-- Main loop of `generate_setop_tlist` (prepunion.c:1109-1214): walk
colTypes/colCollations/input_tlist (with refnames chased alongside),
building one entry per column with `resno` counting up. -/
def generate_setop_tlist_main (varno : Nat) (hack_constants : Bool) :
    Nat → List Oid → List Oid → List TargetEntry → List TargetEntry → List TargetEntry
  | resno, colType :: cts, colColl :: ccs, inputtle :: its, reftle :: rts =>
    let expr :=
      if hack_constants && inputtle.expr.isConst then inputtle.expr
      else .var (makeVar varno (inputtle.resno : Int) (exprType inputtle.expr)
                   (exprTypmod inputtle.expr) (exprCollation inputtle.expr) 0)
    let expr := if exprType expr ≠ colType then Expr.coerceToCommon expr colType else expr
    let expr := if exprCollation expr ≠ colColl then
        Expr.relabel expr (exprType expr) (exprTypmod expr) colColl
      else expr
    let tle := makeTargetEntry expr resno reftle.resname false
    -- By convention, non-resjunk setop tlist entries have ressortgroupref = resno
    let tle := { tle with ressortgroupref := tle.resno }
    tle :: generate_setop_tlist_main varno hack_constants (resno + 1) cts ccs its rts
  | _, _, _, _, _ => []

/-- `generate_setop_tlist` (prepunion.c:1109-1235): targetlist for a
set-operation plan node, with an optional resjunk constant flag column. -/
def generate_setop_tlist (colTypes colCollations : List Oid) (flag : Int) (varno : Nat)
    (hack_constants : Bool) (input_tlist refnames_tlist : List TargetEntry) :
    List TargetEntry :=
  let tlist := generate_setop_tlist_main varno hack_constants 1
    colTypes colCollations input_tlist refnames_tlist
  if flag ≥ 0 then
    tlist ++ [makeTargetEntry (.const INT4OID (-1) InvalidOid flag)
                (tlist.length + 1) "flag" true]
  else tlist

/-- The (type, typmod) sequence of the non-resjunk entries of a tlist; the
first scan of `generate_append_tlist` skips resjunk entries and pairs the
rest with colTypes in order. -/
def tlistTypes (tlist : List TargetEntry) : List (Oid × Int) :=
  (tlist.filter (fun te => !te.resjunk)).map
    (fun te => (exprType te.expr, exprTypmod te.expr))

/-- One pass of the typmod-extraction scan in `generate_append_tlist`
(prepunion.c:1279-1312), updating the running `colTypmods` array with one
input tlist's columns. -/
def updateTypmods (isFirst : Bool) : List Oid → List Int → List (Oid × Int) → List Int
  | colType :: cts, acc :: accs, (ty, tm) :: rest =>
    (if ty = colType then
       (if isFirst then tm else if tm ≠ acc then -1 else acc)
     else -1) :: updateTypmods isFirst cts accs rest
  | _, acc, _ => acc

/-- The `colTypmods` array after scanning every input tlist.  The palloc'd
array starts uninitialized (here: all -1); the first pass overwrites each
slot it reaches, and callers always pass at least one input tlist spanning
all columns. -/
def computeColTypmods (colTypes : List Oid) (input_tlists : List (List TargetEntry)) :
    List Int :=
  match input_tlists with
  | [] => List.replicate colTypes.length (-1)
  | t :: ts =>
    ts.foldl (fun acc t2 => updateTypmods false colTypes acc (tlistTypes t2))
      (updateTypmods true colTypes (List.replicate colTypes.length (-1)) (tlistTypes t))

/-- Second loop of `generate_append_tlist` (prepunion.c:1317-1347): build
varno-0 Vars with the computed typmods. -/
def generate_append_tlist_main :
    Nat → List Oid → List Int → List Oid → List TargetEntry → List TargetEntry
  | resno, colType :: cts, colTypmod :: tms, colColl :: ccs, reftle :: rts =>
    let expr := Expr.var (makeVar 0 (resno : Int) colType colTypmod colColl 0)
    let tle := makeTargetEntry expr resno reftle.resname false
    let tle := { tle with ressortgroupref := tle.resno }
    tle :: generate_append_tlist_main (resno + 1) cts tms ccs rts
  | _, _, _, _, _ => []

/-- `generate_append_tlist` (prepunion.c:1254-1369): targetlist for a
set-operation Append node, with an optional resjunk flag Var. -/
def generate_append_tlist (colTypes colCollations : List Oid) (flag : Bool)
    (input_tlists : List (List TargetEntry)) (refnames_tlist : List TargetEntry) :
    List TargetEntry :=
  let colTypmods := computeColTypmods colTypes input_tlists
  let tlist := generate_append_tlist_main 1 colTypes colTypmods colCollations refnames_tlist
  if flag then
    tlist ++ [makeTargetEntry
      (.var (makeVar 0 ((tlist.length + 1 : Nat) : Int) INT4OID (-1) InvalidOid 0))
      (tlist.length + 1) "flag" true]
  else tlist

/-- Which set operation a `SetOperationStmt` performs. -/
inductive SetOpKind where
  | union | intersect | except_
deriving DecidableEq, Repr

/-- The fields of a `SetOperationStmt` read by the path generators.  The
children are supplied separately (as subtrees or as already-planned
results), matching how each embedded function consumes them. -/
structure SetOpStmtM where
  op : SetOpKind
  all : Bool
  colTypes : List Oid
  colCollations : List Oid
  groupClauses : List SortGroupClause
deriving DecidableEq, Repr

/-- `generate_setop_grouplist` (prepunion.c:1382-1415): copy the parser's
groupClauses and install the sortgrouprefs of the non-resjunk tlist
entries, pairing them in order. -/
def generate_setop_grouplist (op : SetOpStmtM) (targetlist : List TargetEntry) :
    List SortGroupClause :=
  List.zipWith (fun sgc tle => { sgc with tleSortGroupRef := tle.ressortgroupref })
    op.groupClauses (targetlist.filter (fun te => !te.resjunk))

/-- `SetOpCmd` values passed to `create_setop_path`. -/
inductive SetOpCmd where
  | intersectCmd | intersectAllCmd | exceptCmd | exceptAllCmd
deriving DecidableEq, Repr

/-- `SetOpStrategy`: hashed or sorted implementation of the SetOp node. -/
inductive SetOpStrategy where
  | sorted | hashed
deriving DecidableEq, Repr

/-- Shape of the path trees built by the set-op planner.  `child` stands
for a path produced by an external recursion (`recurse_set_operations` on a
child); the other constructors mirror `create_append_path`,
`create_sort_path` and `create_setop_path`. -/
inductive PathT where
  | child (tag : Nat)
  | append (children : List PathT)
  | sort (subpath : PathT)
  | setop (subpath : PathT) (cmd : SetOpCmd) (strategy : SetOpStrategy)
      (numCols : Nat) (firstFlag : Int) (dNumGroups dNumOutputRows : ℚ)

/-- Result of `generate_nonunion_path`: the built path, the `*pNumGroups`
output (none when never assigned), and the function's locals that the
ordering decision produces. -/
structure NonUnionOut where
  path : PathT
  pNumGroups : Option ℚ
  pathlist : List PathT
  firstFlag : Int
  useHash : Option Bool
  dNumGroups : ℚ
  dNumOutputRows : ℚ

/-- `generate_nonunion_path` (prepunion.c:707-867) for INTERSECT/EXCEPT.
The two children have already been planned by `recurse_set_operations`
(external recursion): their paths, path stats, tlists and group estimates
are inputs. -/
def generate_nonunion_path (cfg : PlannerConfig) (cm : CostModel)
    (tuple_fraction : ℚ) (op : SetOpStmtM)
    (lpath rpath : PathT) (linfo rinfo : PathInfo)
    (lpath_tlist rpath_tlist : List TargetEntry)
    (dLeftGroups dRightGroups : ℚ)
    (refnames_tlist : List TargetEntry) : Except PgError NonUnionOut :=
  -- For EXCEPT, the left input must come first; for INTERSECT, put the
  -- smaller input (fewer groups) first.
  let ord :=
    if op.op = SetOpKind.except_ ∨ dLeftGroups ≤ dRightGroups then
      ([lpath, rpath], [lpath_tlist, rpath_tlist], [linfo, rinfo], (0 : Int))
    else
      ([rpath, lpath], [rpath_tlist, lpath_tlist], [rinfo, linfo], (1 : Int))
  let pathlist := ord.1
  let tlist_list := ord.2.1
  let info_list := ord.2.2.1
  let firstFlag := ord.2.2.2
  let tlist := generate_append_tlist op.colTypes op.colCollations true
    tlist_list refnames_tlist
  let path := PathT.append pathlist
  let path_info := cm.append_info info_list tlist
  let groupList := generate_setop_grouplist op tlist
  -- punt if nothing to group on
  if groupList.isEmpty then
    .ok ⟨path, none, pathlist, firstFlag, none, 0, 0⟩
  else
    let dgo :=
      if op.op = SetOpKind.except_ then
        (dLeftGroups, if op.all then linfo.rows else dLeftGroups)
      else
        (min dLeftGroups dRightGroups,
         if op.all then min linfo.rows rinfo.rows else min dLeftGroups dRightGroups)
    let dNumGroups := dgo.1
    let dNumOutputRows := dgo.2
    match choose_hashed_setop cfg cm tuple_fraction groupList path_info
        dNumGroups dNumOutputRows
        (if op.op = SetOpKind.intersect then "INTERSECT" else "EXCEPT") with
    | .error e => .error e
    | .ok use_hash =>
      let path := if use_hash then path else PathT.sort path
      match (match op.op with
             | SetOpKind.intersect =>
               Except.ok (if op.all then SetOpCmd.intersectAllCmd else SetOpCmd.intersectCmd)
             | SetOpKind.except_ =>
               Except.ok (if op.all then SetOpCmd.exceptAllCmd else SetOpCmd.exceptCmd)
             | SetOpKind.union =>
               Except.error (PgError.internalError "unrecognized set op")) with
      | .error e => .error e
      | .ok cmd =>
        let path := PathT.setop path cmd
          (if use_hash then SetOpStrategy.hashed else SetOpStrategy.sorted)
          (op.colTypes.length + 1) (if use_hash then firstFlag else -1)
          dNumGroups dNumOutputRows
        .ok ⟨path, some dNumGroups, pathlist, firstFlag, some use_hash,
             dNumGroups, dNumOutputRows⟩

/-- Result of `generate_recursion_path`: the tlist, grouping list and group
estimate handed to `create_recursiveunion_path`. -/
structure RecursionOut where
  tlist : List TargetEntry
  groupList : List SortGroupClause
  dNumGroups : ℚ

/-- `generate_recursion_path` (prepunion.c:498-614).  The left/right
children are planned by external recursion; their row estimates and tlists
are inputs. -/
def generate_recursion_path (setOp : SetOpStmtM) (lrows rrows : ℚ)
    (lpath_tlist rpath_tlist refnames_tlist : List TargetEntry) :
    Except PgError RecursionOut :=
  if setOp.op ≠ SetOpKind.union then
    .error (.internalError "only UNION queries can be recursive")
  else
    let tlist := generate_append_tlist setOp.colTypes setOp.colCollations false
      [lpath_tlist, rpath_tlist] refnames_tlist
    if setOp.all then
      .ok ⟨tlist, [], 0⟩
    else
      let groupList := generate_setop_grouplist setOp tlist
      -- We only support hashing here
      if !grouping_is_hashable groupList then
        .error (.featureNotSupported "could not implement recursive UNION")
      else
        .ok ⟨tlist, groupList, lrows + rrows * 10⟩

/-- A parse-time set-operation tree: a leaf (RangeTblRef to a primitive
subquery) or a `SetOperationStmt` with two children. -/
inductive SetOpTree where
  | leaf (rtindex : Nat)
  | node (op : SetOpKind) (all : Bool) (colTypes colCollations : List Oid)
      (l r : SetOpTree)
deriving DecidableEq, Repr

/-- `recurse_union_children` (prepunion.c:882-934): fold children that are
identically-propertied UNIONs (same op, same or wider ALL flag, equal
colTypes — collations deliberately not compared) into the parent's path
list; otherwise plan the child separately (modelled as a singleton holding
the subtree handed to `recurse_set_operations`). -/
def recurse_union_children (top_op : SetOpKind) (top_all : Bool)
    (top_colTypes : List Oid) : SetOpTree → List SetOpTree
  | SetOpTree.node op all colTypes colCollations l r =>
    if op = top_op ∧ (all = top_all ∨ all = true) ∧ colTypes = top_colTypes then
      recurse_union_children top_op top_all top_colTypes l ++
        recurse_union_children top_op top_all top_colTypes r
    else
      [SetOpTree.node op all colTypes colCollations l r]
  | SetOpTree.leaf i => [SetOpTree.leaf i]

/-- The Append path list that `generate_union_path` (prepunion.c:654-677)
builds for a UNION node: the concatenation of `recurse_union_children` on
both children, with the node itself as `top_union`. -/
def generate_union_pathlist (op : SetOpKind) (all : Bool) (colTypes : List Oid)
    (larg rarg : SetOpTree) : List SetOpTree :=
  recurse_union_children op all colTypes larg ++
    recurse_union_children op all colTypes rarg

/-- The leaves of a set-operation tree, left to right. -/
def SetOpTree.leaves : SetOpTree → List SetOpTree
  | .leaf i => [.leaf i]
  | .node _ _ _ _ l r => l.leaves ++ r.leaves

/-- Is this subtree a leaf? -/
def SetOpTree.isLeaf : SetOpTree → Bool
  | .leaf _ => true
  | _ => false

/-- A tree built purely of UNION ALL nodes with the given column type
list. -/
def SetOpTree.isUnionAllTree (cts : List Oid) : SetOpTree → Bool
  | .leaf _ => true
  | .node op all colTypes _ l r =>
    decide (op = SetOpKind.union) && all && decide (colTypes = cts) &&
      l.isUnionAllTree cts && r.isUnionAllTree cts

/-! ### Inheritance / partition expansion (expand_inherited_rtentry) -/

/-- Kind of a range-table entry, as far as the expander cares. -/
inductive RTEKind where
  | relation | subquery
deriving DecidableEq, Repr

/-- The fields of a `RangeTblEntry` the expander reads. -/
structure RteM where
  inh : Bool
  rtekind : RTEKind
  relid : Nat
deriving DecidableEq, Repr

/-- Identification of one AppendRelInfo added to `root->append_rel_list`
(parent and child relation OIDs). -/
structure AppInfoRef where
  parent_oid : Nat
  child_oid : Nat
deriving DecidableEq, Repr

/-- A member of the inheritance set as returned by the catalog collaborator
`find_all_inheritors` (the parent itself is the first member), together
with what `heap_open` reveals about it: whether it is another session's
temp table and whether its relkind is `RELKIND_PARTITIONED_TABLE`. -/
structure ChildDesc where
  oid : Nat
  isOtherTemp : Bool
  isPartitioned : Bool
deriving DecidableEq, Repr

/-- A node of a partition hierarchy as enumerated through the catalog's
`PartitionDesc`s: OID, other-session-temp flag, and — when the relation is
itself partitioned — its own partition list. -/
inductive PartRel where
  | mk (oid : Nat) (isOtherTemp : Bool) (subparts : Option (List PartRel))

/-- What the catalog collaborators report about the parent relation:
`has_subclass`, the `find_all_inheritors` result, and its `PartitionDesc`
(none for classic inheritance). -/
structure ParentRel where
  hasSubclass : Bool
  inhOIDs : List ChildDesc
  partdesc : Option (List PartRel)

/-- `expand_single_inheritance_child` (prepunion.c:1729-1839), reduced to
its AppendRelInfo contribution: the child RTE gets `inh = true` exactly
when it is a partitioned table other than the parent itself, and an
AppendRelInfo is built iff the child is not a partitioned table or its RTE
has `inh = true`. -/
def expand_single_inheritance_child (parentOid childOid : Nat)
    (childIsPartitioned : Bool) : Option AppInfoRef :=
  let childInh := decide (childOid ≠ parentOid) && childIsPartitioned
  if !childIsPartitioned || childInh then some ⟨parentOid, childOid⟩ else none

/-- The partition loop of `expand_partitioned_rtentry` (prepunion.c:
1664-1694): skip other-session temp partitions silently; for each real
partition add its AppendRelInfo and recurse when it is itself partitioned.
Returns the `has_child` flag of this level and the AppendRelInfos added
(directly to `root->append_rel_list`) from this level down. -/
def expand_partitioned_children (parentOid : Nat) :
    List PartRel → Bool × List AppInfoRef
  | [] => (false, [])
  | PartRel.mk oid temp sub :: rest =>
    if temp then
      expand_partitioned_children parentOid rest
    else
      let ai := expand_single_inheritance_child parentOid oid sub.isSome
      let below := match sub with
        | some ps => (expand_partitioned_children oid ps).2
        | none => []
      let restOut := expand_partitioned_children parentOid rest
      (true, ai.toList ++ below ++ restOut.2)

/-- `expand_partitioned_rtentry` (prepunion.c:1629-1703) at the top level:
first expand the partitioned table itself (adds no AppendRelInfo, since the
parent-as-child RTE has `inh = false` and partitioned relkind), then the
partitions; the parent RTE's `inh` is cleared iff no real partition was
found. -/
def expand_partitioned_rtentry (parentOid : Nat) (parts : List PartRel) :
    Bool × List AppInfoRef :=
  let selfAi := expand_single_inheritance_child parentOid parentOid true
  let out := expand_partitioned_children parentOid parts
  (out.1, selfAi.toList ++ out.2)

/-- Outcome of `expand_inherited_rtentry`: the RTE's final `inh` flag and
the AppendRelInfos appended to `root->append_rel_list`. -/
structure ExpandResult where
  inh : Bool
  appinfos : List AppInfoRef
deriving DecidableEq, Repr

/-- `expand_inherited_rtentry` (prepunion.c:1468-1620). -/
def expand_inherited_rtentry (rte : RteM) (rel : ParentRel) : ExpandResult :=
  if !rte.inh then ⟨rte.inh, []⟩
  else if rte.rtekind ≠ RTEKind.relation then ⟨rte.inh, []⟩
  -- Fast path for common case of childless table
  else if !rel.hasSubclass then ⟨false, []⟩
  -- Check that there's at least one descendant, else treat as no-child case
  else if rel.inhOIDs.length < 2 then ⟨false, []⟩
  else
    match rel.partdesc with
    | some parts =>
      let out := expand_partitioned_rtentry rte.relid parts
      ⟨out.1, out.2⟩
    | none =>
      -- classic inheritance: skip other backends' temp children silently
      let appinfos := rel.inhOIDs.filterMap (fun c =>
        if c.oid ≠ rte.relid && c.isOtherTemp then none
        else expand_single_inheritance_child rte.relid c.oid c.isPartitioned)
      -- if all the children were temp tables, pretend non-inheritance
      if appinfos.length < 2 then ⟨false, []⟩
      else ⟨true, appinfos⟩

/-! ### Column-privilege translation and append-rel attribute rewriting -/

/-- `FirstLowInvalidHeapAttributeNumber` (sysattr.h, an external header):
the PostgreSQL-10-era value -8, one below the lowest system attribute
number.  Bitmapset members are attno - FirstLowInvalidHeapAttributeNumber. -/
def FirstLowInvalidHeapAttributeNumber : Int := -8

/-- `InvalidAttrNumber` = 0, the whole-row pseudo-attribute. -/
def InvalidAttrNumber : Int := 0

/-- `bms_is_member` on the bitmapset model. -/
def bms_is_member (x : Int) (s : Finset Int) : Bool := decide (x ∈ s)

/-- `bms_add_member`. -/
def bms_add_member (s : Finset Int) (x : Int) : Finset Int := insert x s

/-- The system attribute numbers, `FirstLowInvalidHeapAttributeNumber + 1`
up to -1, in loop order. -/
def sysAttNumbers : List Int :=
  (List.range (Int.toNat (-FirstLowInvalidHeapAttributeNumber - 1))).map
    (fun k => FirstLowInvalidHeapAttributeNumber + 1 + (k : Int))

/-- `translate_col_privs` (prepunion.c:1953-1992): translate a per-column
privilege bitmapset from parent attribute numbering to a child's, using the
child's translated-vars list (`none` entries are dropped columns). -/
def translate_col_privs (parent_privs : Finset Int)
    (translated_vars : List (Option VarM)) : Finset Int :=
  -- System attributes have the same numbers in all tables
  let child_privs := sysAttNumbers.foldl (fun acc attno =>
    if bms_is_member (attno - FirstLowInvalidHeapAttributeNumber) parent_privs then
      bms_add_member acc (attno - FirstLowInvalidHeapAttributeNumber)
    else acc) ∅
  -- Check if parent has whole-row reference
  let whole_row := bms_is_member
    (InvalidAttrNumber - FirstLowInvalidHeapAttributeNumber) parent_privs
  -- And now translate the regular user attributes, using the vars list
  (translated_vars.enum).foldl (fun acc p =>
    match p.2 with
    | none => acc  -- ignore dropped columns
    | some var =>
      if whole_row ||
          bms_is_member (((p.1 : Int) + 1) - FirstLowInvalidHeapAttributeNumber)
            parent_privs then
        bms_add_member acc (var.varattno - FirstLowInvalidHeapAttributeNumber)
      else acc) child_privs

/-- One parent→child translation map (`AppendRelInfo`), as read by the
attribute translator. -/
structure AppendRelInfoM where
  parent_relid : Nat
  child_relid : Nat
  parent_reltype : Oid
  child_reltype : Oid
  parent_reloid : Nat
  translated_vars : List (Option Expr)

/-- The context of `adjust_appendrel_attrs_mutator`: the maps, and the
range table's column-name lists (`rte->eref->colnames`, 1-indexed by
range-table index). -/
structure AdjustContext where
  appinfos : List AppendRelInfoM
  rtable_colnames : List (List String)

/-- The `IsA(node, Var)` arm of `adjust_appendrel_attrs_mutator`
(prepunion.c:2067-2156): translate one Var according to the first matching
map. -/
def adjust_appendrel_attrs_var (ctx : AdjustContext) (v0 : VarM) :
    Except PgError Expr :=
  match ctx.appinfos.find? (fun a => v0.varno = a.parent_relid) with
  | some appinfo =>
    if v0.varlevelsup = 0 then
      let v : VarM := { v0 with varno := appinfo.child_relid,
                                varnoold := appinfo.child_relid }
      if v.varattno > 0 then
        if v.varattno > (appinfo.translated_vars.length : Int) then
          .error (.internalError "attribute of relation does not exist")
        else
          match appinfo.translated_vars.getD (v.varattno.toNat - 1) none with
          | none => .error (.internalError "attribute of relation does not exist")
          | some e => .ok e
      else if v.varattno = InvalidAttrNumber then
        -- Whole-row Var
        if appinfo.child_reltype ≠ InvalidOid then
          if appinfo.parent_reltype ≠ appinfo.child_reltype then
            .ok (.convertRowtype (.var { v with vartype := appinfo.child_reltype })
                  appinfo.parent_reltype)
          else
            .ok (.var v)
        else
          -- Build a RowExpr containing the translated variables, with the
          -- parent RTE's column names.
          .ok (.rowExpr appinfo.translated_vars v.vartype
                (ctx.rtable_colnames.getD (appinfo.parent_relid - 1) []))
      else
        -- system attributes don't need any other translation
        .ok (.var v)
    else
      .ok (.var v0)
  | none => .ok (.var v0)

/-- The other-session-temp flag of a partition-hierarchy node. -/
def PartRel.isOtherTemp : PartRel → Bool
  | .mk _ t _ => t

/-- A trivial concrete cost model, used to evaluate the embedding at
concrete inputs. -/
def cmTriv : CostModel where
  cost_agg := fun _ _ _ _ _ => ⟨0, 0⟩
  cost_sort := fun _ _ _ => ⟨0, 0⟩
  cost_group := fun _ _ _ _ _ => ⟨0, 1⟩
  compare_fractional_path_costs := fun a b _ =>
    if a.total < b.total then -1 else if b.total < a.total then 1 else 0
  append_info := fun _ _ => ⟨0, 0, 0, 0⟩

/-- A concrete planner configuration for evaluation. -/
def cfgTriv : PlannerConfig := ⟨true, 1024, 16⟩

/-- A concrete input-path stats record for evaluation. -/
def pInfoTriv : PathInfo := ⟨0, 1, 10, 8⟩

/- ======================================================================
   Theorems
   ====================================================================== -/

/-- C1: `choose_hashed_setop` implements exactly the claimed decision
procedure: hashable-not-sortable returns true unconditionally; sortable-
not-hashable returns false; neither raises the feature-not-supported
"could not implement %s" error naming the construct; with both available,
`enable_hashagg` off returns false; a hash table estimated as
(MAXALIGN(width) + MAXALIGN(minimal tuple header size)) * dNumGroups
exceeding work_mem * 1024 returns false; otherwise the result is true iff
the fractional-cost comparison of the hashed dummy path against the
sort-then-group dummy path (with tuple_fraction divided by dNumOutputRows
when >= 1.0) is strictly negative, so a cost tie chooses sorting. -/
theorem choose_hashed_setop_correct (cfg : PlannerConfig) (cm : CostModel)
    (tf : ℚ) (gl : List SortGroupClause) (p : PathInfo) (g o : ℚ)
    (construct : String) :
    (grouping_is_hashable gl = true ∧ grouping_is_sortable gl = false →
      choose_hashed_setop cfg cm tf gl p g o construct = .ok true) ∧
    (grouping_is_sortable gl = true ∧ grouping_is_hashable gl = false →
      choose_hashed_setop cfg cm tf gl p g o construct = .ok false) ∧
    (grouping_is_sortable gl = false ∧ grouping_is_hashable gl = false →
      choose_hashed_setop cfg cm tf gl p g o construct =
        .error (.featureNotSupported ("could not implement " ++ construct))) ∧
    (grouping_is_hashable gl = true ∧ grouping_is_sortable gl = true ∧
        cfg.enable_hashagg = false →
      choose_hashed_setop cfg cm tf gl p g o construct = .ok false) ∧
    (grouping_is_hashable gl = true ∧ grouping_is_sortable gl = true ∧
        cfg.enable_hashagg = true ∧
        ((MAXALIGN p.width + MAXALIGN cfg.sizeofMinimalTupleHeader : ℚ) * g >
          (cfg.work_mem : ℚ) * 1024) →
      choose_hashed_setop cfg cm tf gl p g o construct = .ok false) ∧
    (grouping_is_hashable gl = true ∧ grouping_is_sortable gl = true ∧
        cfg.enable_hashagg = true ∧
        ¬((MAXALIGN p.width + MAXALIGN cfg.sizeofMinimalTupleHeader : ℚ) * g >
          (cfg.work_mem : ℚ) * 1024) →
      (choose_hashed_setop cfg cm tf gl p g o construct = .ok true ↔
        cm.compare_fractional_path_costs
          (cm.cost_agg gl.length g p.startup_cost p.total_cost p.rows)
          (cm.cost_group gl.length g
            (cm.cost_sort p.total_cost p.rows p.width).startup
            (cm.cost_sort p.total_cost p.rows p.width).total p.rows)
          (if tf ≥ 1 then tf / o else tf) < 0)) := by
  refine ⟨?_, ?_, ?_, ?_, ?_, ?_⟩
  · rintro ⟨h1, h2⟩
    simp [choose_hashed_setop, h1, h2]
  · rintro ⟨h1, h2⟩
    simp [choose_hashed_setop, h1, h2]
  · rintro ⟨h1, h2⟩
    simp [choose_hashed_setop, h1, h2]
  · rintro ⟨h1, h2, h3⟩
    simp [choose_hashed_setop, h1, h2, h3]
  · rintro ⟨h1, h2, h3, h4⟩
    simp only [choose_hashed_setop, h1, h2, h3, Bool.and_self, if_true,
      Bool.not_true, Bool.false_eq_true, if_false]
    rw [if_pos]
    · push_cast
      exact h4
  · rintro ⟨h1, h2, h3, h4⟩
    simp only [choose_hashed_setop, h1, h2, h3, Bool.and_self, if_true,
      Bool.not_true, Bool.false_eq_true, if_false]
    rw [if_neg]
    · constructor
      · intro h
        by_contra hc
        rw [if_neg hc] at h
        exact Bool.false_ne_true (Except.ok.inj h)
      · intro h
        rw [if_pos h]
    · push_cast
      exact h4

/-- Witness for C1: with a single hashable-but-not-sortable grouping key,
`choose_hashed_setop` chooses hashing. -/
theorem choose_hashed_setop_correct_witness :
    choose_hashed_setop cfgTriv cmTriv 0 [⟨0, false, true⟩] pInfoTriv 1 1
      "UNION" = .ok true :=
  (choose_hashed_setop_correct cfgTriv cmTriv 0 [⟨0, false, true⟩] pInfoTriv
    1 1 "UNION").1 ⟨rfl, rfl⟩

/-- Every element of `t.leaves` is a leaf. -/
theorem SetOpTree.leaves_isLeaf : ∀ (t : SetOpTree), ∀ x ∈ t.leaves, x.isLeaf = true := by
  intro t
  induction t with
  | leaf i => intro x hx; simp only [SetOpTree.leaves, List.mem_singleton] at hx
              subst hx; rfl
  | node op all cts ccs l r ihl ihr =>
    intro x hx
    simp only [SetOpTree.leaves, List.mem_append] at hx
    rcases hx with h | h
    · exact ihl x h
    · exact ihr x h

/-- On a pure UNION ALL tree with the given column types,
`recurse_union_children` (with matching top-union properties) folds the
whole tree into its list of leaves. -/
theorem recurse_union_children_pure (cts : List Oid) :
    ∀ (t : SetOpTree), t.isUnionAllTree cts = true →
      recurse_union_children SetOpKind.union true cts t = t.leaves := by
  intro t
  induction t with
  | leaf i => intro _; rfl
  | node op all cT cC l r ihl ihr =>
    intro h
    simp only [SetOpTree.isUnionAllTree, Bool.and_eq_true, decide_eq_true_eq] at h
    obtain ⟨⟨⟨⟨hop, hall⟩, hcts⟩, hl⟩, hr⟩ := h
    simp only [recurse_union_children, SetOpTree.leaves]
    rw [if_pos ⟨hop, Or.inl hall, hcts⟩, ihl hl, ihr hr]

/-- C3: `recurse_union_children` folds a child `SetOperationStmt` into the
parent UNION's own path list iff the child's operator equals the parent's,
the child's ALL flag equals the parent's or is true, and the column type
lists are equal (collations are not compared); applied recursively, a tree
built purely of UNION ALL nodes with identical column type lists yields a
single N-way Append whose path list holds one (leaf) entry per leaf — never
a nested chain of Appends. -/
theorem recurse_union_children_correct :
    (∀ (top_op : SetOpKind) (top_all : Bool) (tcts : List Oid)
       (op : SetOpKind) (all : Bool) (cts ccs : List Oid) (l r : SetOpTree),
       (op = top_op ∧ (all = top_all ∨ all = true) ∧ cts = tcts →
         recurse_union_children top_op top_all tcts
             (SetOpTree.node op all cts ccs l r) =
           recurse_union_children top_op top_all tcts l ++
             recurse_union_children top_op top_all tcts r) ∧
       (¬(op = top_op ∧ (all = top_all ∨ all = true) ∧ cts = tcts) →
         recurse_union_children top_op top_all tcts
             (SetOpTree.node op all cts ccs l r) =
           [SetOpTree.node op all cts ccs l r])) ∧
    (∀ (cts ccs : List Oid) (l r : SetOpTree),
       (SetOpTree.node SetOpKind.union true cts ccs l r).isUnionAllTree cts = true →
         generate_union_pathlist SetOpKind.union true cts l r =
           (SetOpTree.node SetOpKind.union true cts ccs l r).leaves ∧
         ∀ x ∈ generate_union_pathlist SetOpKind.union true cts l r,
           x.isLeaf = true) := by
  constructor
  · intro top_op top_all tcts op all cts ccs l r
    constructor
    · intro h
      simp only [recurse_union_children]
      rw [if_pos h]
    · intro h
      simp only [recurse_union_children]
      rw [if_neg h]
  · intro cts ccs l r h
    simp only [SetOpTree.isUnionAllTree, Bool.and_eq_true, decide_eq_true_eq] at h
    obtain ⟨⟨⟨⟨-, -⟩, -⟩, hl⟩, hr⟩ := h
    have hmain : generate_union_pathlist SetOpKind.union true cts l r =
        (SetOpTree.node SetOpKind.union true cts ccs l r).leaves := by
      simp only [generate_union_pathlist, SetOpTree.leaves]
      rw [recurse_union_children_pure cts l hl, recurse_union_children_pure cts r hr]
    refine ⟨hmain, ?_⟩
    intro x hx
    rw [hmain] at hx
    exact SetOpTree.leaves_isLeaf _ x hx

/-- Witness for C3: a depth-3 pure UNION ALL tree flattens to a single
three-way path list of leaves. -/
theorem recurse_union_children_correct_witness :
    generate_union_pathlist SetOpKind.union true [23]
        (SetOpTree.node SetOpKind.union true [23] [] (.leaf 1) (.leaf 2))
        (SetOpTree.leaf 3) =
      [SetOpTree.leaf 1, SetOpTree.leaf 2, SetOpTree.leaf 3] := by
  have h := (recurse_union_children_correct.2 [23] []
    (SetOpTree.node SetOpKind.union true [23] [] (.leaf 1) (.leaf 2))
    (SetOpTree.leaf 3) (by decide)).1
  rw [h]
  rfl

/-- Entries produced by the main loop of `generate_setop_tlist` are
consecutively numbered from `start`, non-resjunk, and carry
`ressortgroupref = resno`. -/
theorem generate_setop_tlist_main_get (varno : Nat) (hack : Bool) :
    ∀ (cts ccs : List Oid) (its rts : List TargetEntry) (start k : Nat)
      (te : TargetEntry),
      (generate_setop_tlist_main varno hack start cts ccs its rts).get? k = some te →
        te.resno = start + k ∧ te.resjunk = false ∧
          te.ressortgroupref = start + k := by
  intro cts
  induction cts with
  | nil => intro ccs its rts start k te h; simp [generate_setop_tlist_main] at h
  | cons ct cts ih =>
    intro ccs its rts start k te h
    match ccs, its, rts with
    | [], _, _ => simp [generate_setop_tlist_main] at h
    | _ :: _, [], _ => simp [generate_setop_tlist_main] at h
    | _ :: _, _ :: _, [] => simp [generate_setop_tlist_main] at h
    | cc :: ccs, it :: its, rt :: rts =>
      rw [generate_setop_tlist_main] at h
      match k with
      | 0 =>
        simp only [List.get?_cons_zero, Option.some.injEq] at h
        subst h
        exact ⟨rfl, rfl, rfl⟩
      | k + 1 =>
        simp only [List.get?_cons_succ] at h
        obtain ⟨h1, h2, h3⟩ := ih ccs its rts (start + 1) k te h
        exact ⟨by omega, h2, by omega⟩

/-- Entries produced by the main loop of `generate_append_tlist` are
consecutively numbered from `start`, non-resjunk, and carry
`ressortgroupref = resno`. -/
theorem generate_append_tlist_main_get :
    ∀ (cts : List Oid) (tms : List Int) (ccs : List Oid)
      (rts : List TargetEntry) (start k : Nat) (te : TargetEntry),
      (generate_append_tlist_main start cts tms ccs rts).get? k = some te →
        te.resno = start + k ∧ te.resjunk = false ∧
          te.ressortgroupref = start + k := by
  intro cts
  induction cts with
  | nil => intro tms ccs rts start k te h; simp [generate_append_tlist_main] at h
  | cons ct cts ih =>
    intro tms ccs rts start k te h
    match tms, ccs, rts with
    | [], _, _ => simp [generate_append_tlist_main] at h
    | _ :: _, [], _ => simp [generate_append_tlist_main] at h
    | _ :: _, _ :: _, [] => simp [generate_append_tlist_main] at h
    | tm :: tms, cc :: ccs, rt :: rts =>
      rw [generate_append_tlist_main] at h
      match k with
      | 0 =>
        simp only [List.get?_cons_zero, Option.some.injEq] at h
        subst h
        exact ⟨rfl, rfl, rfl⟩
      | k + 1 =>
        simp only [List.get?_cons_succ] at h
        obtain ⟨h1, h2, h3⟩ := ih tms ccs rts (start + 1) k te h
        exact ⟨by omega, h2, by omega⟩

/-- C6: every target list produced by `generate_setop_tlist` or
`generate_append_tlist` numbers its entries densely from 1 in order, gives
each non-junk entry `ressortgroupref` equal to its own `resno`, and gives
the optional junk flag entry (which is last) `ressortgroupref` 0. -/
theorem setop_tlist_refs_invariant :
    (∀ (cts ccs : List Oid) (flag : Int) (varno : Nat) (hack : Bool)
       (itl rtl : List TargetEntry) (k : Nat) (te : TargetEntry),
       (generate_setop_tlist cts ccs flag varno hack itl rtl).get? k = some te →
         te.resno = k + 1 ∧
         (te.resjunk = false → te.ressortgroupref = k + 1) ∧
         (te.resjunk = true → te.ressortgroupref = 0 ∧
           k + 1 = (generate_setop_tlist cts ccs flag varno hack itl rtl).length)) ∧
    (∀ (cts ccs : List Oid) (flag : Bool) (tlists : List (List TargetEntry))
       (rtl : List TargetEntry) (k : Nat) (te : TargetEntry),
       (generate_append_tlist cts ccs flag tlists rtl).get? k = some te →
         te.resno = k + 1 ∧
         (te.resjunk = false → te.ressortgroupref = k + 1) ∧
         (te.resjunk = true → te.ressortgroupref = 0 ∧
           k + 1 = (generate_append_tlist cts ccs flag tlists rtl).length)) := by
  constructor
  · intro cts ccs flag varno hack itl rtl k te h
    rw [generate_setop_tlist] at h ⊢
    by_cases hf : flag ≥ 0
    · rw [if_pos hf] at h ⊢
      by_cases hk : k <
          (generate_setop_tlist_main varno hack 1 cts ccs itl rtl).length
      · rw [List.get?_append hk] at h
        obtain ⟨h1, h2, h3⟩ := generate_setop_tlist_main_get varno hack
          cts ccs itl rtl 1 k te h
        refine ⟨by omega, fun _ => by omega, fun hj => ?_⟩
        rw [h2] at hj; exact absurd hj (by simp)
      · rw [List.get?_append_right (by omega)] at h
        match hq : k - (generate_setop_tlist_main varno hack 1 cts ccs itl rtl).length with
        | 0 =>
          rw [hq, List.get?_cons_zero, Option.some.injEq] at h
          subst h
          simp only [makeTargetEntry, List.length_append, List.length_cons,
            List.length_nil]
          exact ⟨by omega, fun hc => by exact absurd hc (by simp), fun _ => ⟨by trivial, by omega⟩⟩
        | q + 1 =>
          rw [hq] at h
          simp at h
    · rw [if_neg hf] at h ⊢
      obtain ⟨h1, h2, h3⟩ := generate_setop_tlist_main_get varno hack
        cts ccs itl rtl 1 k te h
      refine ⟨by omega, fun _ => by omega, fun hj => ?_⟩
      rw [h2] at hj; exact absurd hj (by simp)
  · intro cts ccs flag tlists rtl k te h
    rw [generate_append_tlist] at h ⊢
    by_cases hf : flag = true
    · rw [hf, if_pos rfl] at h ⊢
      by_cases hk : k <
          (generate_append_tlist_main 1 cts (computeColTypmods cts tlists) ccs rtl).length
      · rw [List.get?_append hk] at h
        obtain ⟨h1, h2, h3⟩ := generate_append_tlist_main_get
          cts (computeColTypmods cts tlists) ccs rtl 1 k te h
        refine ⟨by omega, fun _ => by omega, fun hj => ?_⟩
        rw [h2] at hj; exact absurd hj (by simp)
      · rw [List.get?_append_right (by omega)] at h
        match hq : k - (generate_append_tlist_main 1 cts
            (computeColTypmods cts tlists) ccs rtl).length with
        | 0 =>
          rw [hq, List.get?_cons_zero, Option.some.injEq] at h
          subst h
          simp only [makeTargetEntry, List.length_append, List.length_cons,
            List.length_nil]
          exact ⟨by omega, fun hc => by exact absurd hc (by simp), fun _ => ⟨by trivial, by omega⟩⟩
        | q + 1 =>
          rw [hq] at h
          simp at h
    · rw [if_neg hf] at h ⊢
      obtain ⟨h1, h2, h3⟩ := generate_append_tlist_main_get
        cts (computeColTypmods cts tlists) ccs rtl 1 k te h
      refine ⟨by omega, fun _ => by omega, fun hj => ?_⟩
      rw [h2] at hj; exact absurd hj (by simp)

/-- C9: the translator never touches outer-query references: a Var with
nonzero `varlevelsup` is returned as an unchanged copy (varno, varattno and
type information intact), even when its varno matches a mapped parent
relation. -/
theorem adjust_var_outer_untranslated (ctx : AdjustContext) (v : VarM)
    (h : v.varlevelsup ≠ 0) :
    adjust_appendrel_attrs_var ctx v = .ok (.var v) := by
  rw [adjust_appendrel_attrs_var]
  cases hf : ctx.appinfos.find? (fun a => v.varno = a.parent_relid) with
  | none => rfl
  | some a => simp only [if_neg h]

/-- Witness for C9: a level-1 Var whose varno (1) matches the mapped
parent relation is returned unchanged. -/
theorem adjust_var_outer_untranslated_witness :
    adjust_appendrel_attrs_var
      ⟨[⟨1, 2, 0, 0, 10, [some (Expr.var (makeVar 2 1 23 (-1) 0 0))]⟩], [["a"]]⟩
      (makeVar 1 1 23 (-1) 0 1) =
    .ok (.var (makeVar 1 1 23 (-1) 0 1)) :=
  adjust_var_outer_untranslated
    ⟨[⟨1, 2, 0, 0, 10, [some (Expr.var (makeVar 2 1 23 (-1) 0 0))]⟩], [["a"]]⟩
    (makeVar 1 1 23 (-1) 0 1) (by decide)

/-- C8: for a level-zero Var matched by a map, the translator substitutes
the map's pre-built expression for a positive attribute number (internal
error when out of range or hitting the dropped-column sentinel); for the
whole-row attribute zero it builds a `ConvertRowtypeExpr` around the
retargeted child Var when the child has a valid composite type differing
from the parent's, returns the bare retargeted Var when the two composite
types are equal, and builds a `RowExpr` over the translated columns with
the parent RTE's column names when the child has no valid composite type;
negative (system) attribute numbers are only retargeted to the child
relid. -/
theorem adjust_var_translation (ctx : AdjustContext) (v : VarM)
    (a : AppendRelInfoM)
    (hfind : ctx.appinfos.find? (fun x => v.varno = x.parent_relid) = some a)
    (hlev : v.varlevelsup = 0) :
    (0 < v.varattno → (a.translated_vars.length : Int) < v.varattno →
      adjust_appendrel_attrs_var ctx v =
        .error (.internalError "attribute of relation does not exist")) ∧
    (0 < v.varattno → v.varattno ≤ (a.translated_vars.length : Int) →
      a.translated_vars.getD (v.varattno.toNat - 1) none = none →
      adjust_appendrel_attrs_var ctx v =
        .error (.internalError "attribute of relation does not exist")) ∧
    (∀ e, 0 < v.varattno → v.varattno ≤ (a.translated_vars.length : Int) →
      a.translated_vars.getD (v.varattno.toNat - 1) none = some e →
      adjust_appendrel_attrs_var ctx v = .ok e) ∧
    (v.varattno = 0 → a.child_reltype ≠ InvalidOid →
      a.parent_reltype ≠ a.child_reltype →
      adjust_appendrel_attrs_var ctx v =
        .ok (.convertRowtype
          (.var { v with varno := a.child_relid, varnoold := a.child_relid,
                         vartype := a.child_reltype })
          a.parent_reltype)) ∧
    (v.varattno = 0 → a.child_reltype ≠ InvalidOid →
      a.parent_reltype = a.child_reltype →
      adjust_appendrel_attrs_var ctx v =
        .ok (.var { v with varno := a.child_relid,
                           varnoold := a.child_relid })) ∧
    (v.varattno = 0 → a.child_reltype = InvalidOid →
      adjust_appendrel_attrs_var ctx v =
        .ok (.rowExpr a.translated_vars v.vartype
          (ctx.rtable_colnames.getD (a.parent_relid - 1) []))) ∧
    (v.varattno < 0 →
      adjust_appendrel_attrs_var ctx v =
        .ok (.var { v with varno := a.child_relid,
                           varnoold := a.child_relid })) := by
  refine ⟨?_, ?_, ?_, ?_, ?_, ?_, ?_⟩
  · intro hpos hgt
    rw [adjust_appendrel_attrs_var, hfind]
    simp only [if_pos hlev, if_pos hpos, if_pos hgt]
  · intro hpos hle hnone
    rw [adjust_appendrel_attrs_var, hfind]
    simp only [if_pos hlev, if_pos hpos, if_neg (not_lt.mpr hle), hnone]
  · intro e hpos hle hsome
    rw [adjust_appendrel_attrs_var, hfind]
    simp only [if_pos hlev, if_pos hpos, if_neg (not_lt.mpr hle), hsome]
  · intro hz hvalid hne
    rw [adjust_appendrel_attrs_var, hfind]
    dsimp only
    rw [if_pos hlev, hz]
    rw [if_neg (by decide), if_pos (show (0:Int) = InvalidAttrNumber by rfl), if_pos hvalid, if_pos hne]
  · intro hz hvalid heq
    rw [adjust_appendrel_attrs_var, hfind]
    dsimp only
    rw [if_pos hlev, hz]
    rw [if_neg (by decide), if_pos (show (0:Int) = InvalidAttrNumber by rfl), if_pos hvalid, if_neg (by simp [heq])]
  · intro hz hinvalid
    rw [adjust_appendrel_attrs_var, hfind]
    dsimp only
    rw [if_pos hlev, hz]
    rw [if_neg (by decide), if_pos (show (0:Int) = InvalidAttrNumber by rfl), if_neg (by simp [hinvalid])]
  · intro hneg
    rw [adjust_appendrel_attrs_var, hfind]
    dsimp only
    rw [if_pos hlev, if_neg (by omega),
      if_neg (by simp only [InvalidAttrNumber]; omega)]

/-- Witness for C8: a positive attribute number is replaced by the map's
pre-built child expression. -/
theorem adjust_var_translation_witness :
    adjust_appendrel_attrs_var
      ⟨[⟨1, 2, 0, 0, 10, [some (Expr.var (makeVar 2 3 23 (-1) 0 0))]⟩], [["a"]]⟩
      (makeVar 1 1 23 (-1) 0 0) =
    .ok (.var (makeVar 2 3 23 (-1) 0 0)) :=
  (adjust_var_translation
    ⟨[⟨1, 2, 0, 0, 10, [some (Expr.var (makeVar 2 3 23 (-1) 0 0))]⟩], [["a"]]⟩
    (makeVar 1 1 23 (-1) 0 0)
    ⟨1, 2, 0, 0, 10, [some (Expr.var (makeVar 2 3 23 (-1) 0 0))]⟩
    rfl rfl).2.2.1 (Expr.var (makeVar 2 3 23 (-1) 0 0))
    (by decide) (by decide) rfl

/-- Membership after the system-attribute fold of `translate_col_privs`. -/
theorem translate_sys_fold_mem (pp : Finset Int) :
    ∀ (l : List Int) (init : Finset Int) (x : Int),
      (x ∈ l.foldl (fun acc attno =>
          if bms_is_member (attno - FirstLowInvalidHeapAttributeNumber) pp then
            bms_add_member acc (attno - FirstLowInvalidHeapAttributeNumber)
          else acc) init ↔
        x ∈ init ∨ ∃ attno ∈ l,
          bms_is_member (attno - FirstLowInvalidHeapAttributeNumber) pp = true ∧
          x = attno - FirstLowInvalidHeapAttributeNumber) := by
  intro l
  induction l with
  | nil => intro init x; simp
  | cons hd tl ih =>
    intro init x
    simp only [List.foldl_cons, List.mem_cons]
    rw [ih]
    by_cases hm : bms_is_member (hd - FirstLowInvalidHeapAttributeNumber) pp = true
    · rw [if_pos hm]
      simp only [bms_add_member, Finset.mem_insert]
      constructor
      · rintro ((h | h) | ⟨a, ha, hma, hxa⟩)
        · exact Or.inr ⟨hd, Or.inl rfl, hm, h⟩
        · exact Or.inl h
        · exact Or.inr ⟨a, Or.inr ha, hma, hxa⟩
      · rintro (h | ⟨a, ha | ha, hma, hxa⟩)
        · exact Or.inl (Or.inr h)
        · subst ha; exact Or.inl (Or.inl hxa)
        · exact Or.inr ⟨a, ha, hma, hxa⟩
    · rw [if_neg hm]
      constructor
      · rintro (h | ⟨a, ha, hma, hxa⟩)
        · exact Or.inl h
        · exact Or.inr ⟨a, Or.inr ha, hma, hxa⟩
      · rintro (h | ⟨a, ha | ha, hma, hxa⟩)
        · exact Or.inl h
        · subst ha; exact absurd hma hm
        · exact Or.inr ⟨a, ha, hma, hxa⟩

/-- Membership after the translated-vars fold of `translate_col_privs`. -/
theorem translate_vars_fold_mem (pp : Finset Int) (wr : Bool) :
    ∀ (l : List (Nat × Option VarM)) (init : Finset Int) (x : Int),
      (x ∈ l.foldl (fun acc p =>
          match p.2 with
          | none => acc
          | some var =>
            if wr || bms_is_member
                (((p.1 : Int) + 1) - FirstLowInvalidHeapAttributeNumber) pp then
              bms_add_member acc (var.varattno - FirstLowInvalidHeapAttributeNumber)
            else acc) init ↔
        x ∈ init ∨ ∃ p ∈ l, ∃ var, p.2 = some var ∧
          (wr || bms_is_member
            (((p.1 : Int) + 1) - FirstLowInvalidHeapAttributeNumber) pp) = true ∧
          x = var.varattno - FirstLowInvalidHeapAttributeNumber) := by
  intro l
  induction l with
  | nil => intro init x; simp
  | cons hd tl ih =>
    intro init x
    simp only [List.foldl_cons, List.mem_cons]
    rw [ih]
    match hv : hd.2 with
    | none =>
      simp only [hv]
      constructor
      · rintro (h | ⟨p, hp, var, hpv, hc, hx⟩)
        · exact Or.inl h
        · exact Or.inr ⟨p, Or.inr hp, var, hpv, hc, hx⟩
      · rintro (h | ⟨p, hp | hp, var, hpv, hc, hx⟩)
        · exact Or.inl h
        · subst hp; rw [hv] at hpv; exact absurd hpv (by simp)
        · exact Or.inr ⟨p, hp, var, hpv, hc, hx⟩
    | some var0 =>
      simp only [hv]
      by_cases hc0 : (wr || bms_is_member
          (((hd.1 : Int) + 1) - FirstLowInvalidHeapAttributeNumber) pp) = true
      · rw [if_pos hc0]
        simp only [bms_add_member, Finset.mem_insert]
        constructor
        · rintro ((h | h) | ⟨p, hp, var, hpv, hc, hx⟩)
          · exact Or.inr ⟨hd, Or.inl rfl, var0, hv, hc0, h⟩
          · exact Or.inl h
          · exact Or.inr ⟨p, Or.inr hp, var, hpv, hc, hx⟩
        · rintro (h | ⟨p, hp | hp, var, hpv, hc, hx⟩)
          · exact Or.inl (Or.inr h)
          · subst hp
            rw [hv] at hpv
            obtain rfl : var0 = var := Option.some.inj hpv
            exact Or.inl (Or.inl hx)
          · exact Or.inr ⟨p, hp, var, hpv, hc, hx⟩
      · rw [if_neg hc0]
        constructor
        · rintro (h | ⟨p, hp, var, hpv, hc, hx⟩)
          · exact Or.inl h
          · exact Or.inr ⟨p, Or.inr hp, var, hpv, hc, hx⟩
        · rintro (h | ⟨p, hp | hp, var, hpv, hc, hx⟩)
          · exact Or.inl h
          · subst hp; exact absurd hc hc0
          · exact Or.inr ⟨p, hp, var, hpv, hc, hx⟩

/-- C10: `translate_col_privs` never produces the whole-row bit in the
child set; a parent whole-row bit instead yields the per-column bit of
every non-dropped translated child column, system-attribute bits are copied
through with unchanged attribute numbers, dropped-column slots contribute
no bits, and a parent per-column bit maps to the bit of the child attribute
number recorded in the translation list at that position. -/
theorem translate_col_privs_correct (pp : Finset Int) (tvs : List (Option VarM))
    (hpos : ∀ ov ∈ tvs, ∀ v : VarM, ov = some v → 0 < v.varattno) :
    (InvalidAttrNumber - FirstLowInvalidHeapAttributeNumber) ∉
        translate_col_privs pp tvs ∧
    (∀ x : Int, x ∈ translate_col_privs pp tvs ↔
      ((∃ attno ∈ sysAttNumbers,
          (attno - FirstLowInvalidHeapAttributeNumber) ∈ pp ∧
          x = attno - FirstLowInvalidHeapAttributeNumber) ∨
       (∃ i : Nat, ∃ v : VarM, tvs.get? i = some (some v) ∧
          ((InvalidAttrNumber - FirstLowInvalidHeapAttributeNumber) ∈ pp ∨
           (((i : Int) + 1) - FirstLowInvalidHeapAttributeNumber) ∈ pp) ∧
          x = v.varattno - FirstLowInvalidHeapAttributeNumber))) := by
  have hchar : ∀ x : Int, x ∈ translate_col_privs pp tvs ↔
      ((∃ attno ∈ sysAttNumbers,
          (attno - FirstLowInvalidHeapAttributeNumber) ∈ pp ∧
          x = attno - FirstLowInvalidHeapAttributeNumber) ∨
       (∃ i : Nat, ∃ v : VarM, tvs.get? i = some (some v) ∧
          ((InvalidAttrNumber - FirstLowInvalidHeapAttributeNumber) ∈ pp ∨
           (((i : Int) + 1) - FirstLowInvalidHeapAttributeNumber) ∈ pp) ∧
          x = v.varattno - FirstLowInvalidHeapAttributeNumber)) := by
    intro x
    simp only [translate_col_privs]
    rw [translate_vars_fold_mem, translate_sys_fold_mem]
    simp only [Finset.not_mem_empty, false_or, bms_is_member, decide_eq_true_eq,
      Bool.or_eq_true]
    constructor
    · rintro (⟨a, ha, hm, hx⟩ | ⟨p, hp, var, hpv, hc, hx⟩)
      · exact Or.inl ⟨a, ha, hm, hx⟩
      · refine Or.inr ⟨p.1, var, ?_, hc, hx⟩
        have := List.mk_mem_enum_iff_getElem?.mp (show (p.1, p.2) ∈ tvs.enum from hp)
        rw [List.get?_eq_getElem?, this, hpv]
    · rintro (⟨a, ha, hm, hx⟩ | ⟨i, var, hget, hc, hx⟩)
      · exact Or.inl ⟨a, ha, hm, hx⟩
      · refine Or.inr ⟨(i, some var), ?_, var, rfl, hc, hx⟩
        rw [List.mk_mem_enum_iff_getElem?, ← List.get?_eq_getElem?]
        exact hget
  refine ⟨?_, hchar⟩
  intro h
  rw [hchar] at h
  rcases h with ⟨a, ha, -, hx⟩ | ⟨i, v, hget, -, hx⟩
  · have hneg : ∀ a ∈ sysAttNumbers, a < 0 := by decide
    have := hneg a ha
    simp only [InvalidAttrNumber, FirstLowInvalidHeapAttributeNumber] at hx
    omega
  · have : 0 < v.varattno := by
      have hm : (some v) ∈ tvs := by
        have := List.get?_mem hget
        exact this
      exact hpos (some v) hm v rfl
    simp only [InvalidAttrNumber, FirstLowInvalidHeapAttributeNumber] at hx
    omega

/-- Witness for C10: a parent set holding the whole-row bit and a system
attribute translates, over a map with one live column (child attno 3) and
one dropped slot, to exactly the system bit and the live column's bit. -/
theorem translate_col_privs_correct_witness :
    translate_col_privs
        ({0 - FirstLowInvalidHeapAttributeNumber,
          (-1) - FirstLowInvalidHeapAttributeNumber} : Finset Int)
        [some (makeVar 2 3 23 (-1) 0 0), none] =
      {(-1) - FirstLowInvalidHeapAttributeNumber,
       3 - FirstLowInvalidHeapAttributeNumber} := by
  have h := translate_col_privs_correct
    ({0 - FirstLowInvalidHeapAttributeNumber,
      (-1) - FirstLowInvalidHeapAttributeNumber} : Finset Int)
    [some (makeVar 2 3 23 (-1) 0 0), none]
    (by intro ov hov v hv
        simp only [List.mem_cons, List.not_mem_nil, or_false] at hov
        rcases hov with h1 | h1 <;> subst h1
        · obtain rfl : makeVar 2 3 23 (-1) 0 0 = v := Option.some.inj hv
          decide
        · exact absurd hv (by simp))
  apply Finset.ext
  intro x
  rw [h.2 x]
  constructor
  · rintro (⟨a, ha, hm, hx⟩ | ⟨i, v, hget, hc, hx⟩)
    · subst hx
      have ha2 : a < 0 := by
        have hall : ∀ b ∈ sysAttNumbers, b < 0 := by decide
        exact hall a ha
      simp only [FirstLowInvalidHeapAttributeNumber] at hm ⊢
      have : a = -1 := by
        simp only [Finset.mem_insert, Finset.mem_singleton] at hm
        omega
      subst this
      simp
    · match i, hget with
      | 0, hget =>
        obtain rfl : makeVar 2 3 23 (-1) 0 0 = v := by
          simpa using hget
        subst hx
        simp [makeVar, FirstLowInvalidHeapAttributeNumber]
      | 1, hget => simp at hget
      | (n+2), hget => simp at hget
  · intro hx
    simp only [Finset.mem_insert, Finset.mem_singleton] at hx
    rcases hx with h1 | h1
    · refine Or.inl ⟨-1, by decide, ?_, h1⟩
      simp [FirstLowInvalidHeapAttributeNumber]
    · refine Or.inr ⟨0, makeVar 2 3 23 (-1) 0 0, rfl, ?_, h1⟩
      exact Or.inl (by simp [InvalidAttrNumber, FirstLowInvalidHeapAttributeNumber])

/-- `updateTypmods` preserves the length of the typmod array. -/
theorem updateTypmods_length (f : Bool) :
    ∀ (cts : List Oid) (acc : List Int) (es : List (Oid × Int)),
      (updateTypmods f cts acc es).length = acc.length := by
  intro cts
  induction cts with
  | nil => intro acc es; cases acc <;> cases es <;> rfl
  | cons ct cts ih =>
    intro acc es
    cases acc with
    | nil => cases es <;> rfl
    | cons a accs =>
      cases es with
      | nil => rfl
      | cons e rest =>
        match e with
        | (ty, tm) =>
          simp only [updateTypmods, List.length_cons]
          rw [ih]

/-- The typmod array spans one slot per declared column type. -/
theorem computeColTypmods_length (cts : List Oid) (ts : List (List TargetEntry)) :
    (computeColTypmods cts ts).length = cts.length := by
  cases ts with
  | nil => simp [computeColTypmods]
  | cons t ts =>
    rw [computeColTypmods]
    have haux : ∀ (l : List (List TargetEntry)) (acc : List Int),
        acc.length = cts.length →
        (l.foldl (fun acc t2 => updateTypmods false cts acc (tlistTypes t2))
          acc).length = cts.length := by
      intro l
      induction l with
      | nil => intro acc h; simpa using h
      | cons u us ihu =>
        intro acc h
        simp only [List.foldl_cons]
        exact ihu _ (by rw [updateTypmods_length]; exact h)
    exact haux ts _ (by rw [updateTypmods_length]; simp)

/-- Length of the Append-tlist main loop output, when all inputs span one
entry per column. -/
theorem generate_append_tlist_main_length :
    ∀ (cts : List Oid) (tms : List Int) (ccs : List Oid)
      (rts : List TargetEntry) (start : Nat),
      tms.length = cts.length → ccs.length = cts.length →
      rts.length = cts.length →
      (generate_append_tlist_main start cts tms ccs rts).length = cts.length := by
  intro cts
  induction cts with
  | nil =>
    intro tms ccs rts start h1 h2 h3
    rw [List.length_eq_zero.mp h1, List.length_eq_zero.mp h2,
      List.length_eq_zero.mp h3]
    rfl
  | cons ct cts ih =>
    intro tms ccs rts start h1 h2 h3
    match tms, ccs, rts with
    | tm :: tms, cc :: ccs, rt :: rts =>
      simp only [generate_append_tlist_main, List.length_cons]
      rw [ih tms ccs rts (start + 1) (by simpa using h1) (by simpa using h2)
        (by simpa using h3)]

/-- Every entry of the Append-tlist main loop is non-resjunk. -/
theorem generate_append_tlist_main_nonjunk :
    ∀ (cts : List Oid) (tms : List Int) (ccs : List Oid)
      (rts : List TargetEntry) (start : Nat) (te : TargetEntry),
      te ∈ generate_append_tlist_main start cts tms ccs rts →
      te.resjunk = false := by
  intro cts
  induction cts with
  | nil => intro tms ccs rts start te h; simp [generate_append_tlist_main] at h
  | cons ct cts ih =>
    intro tms ccs rts start te h
    match tms, ccs, rts with
    | [], _, _ => simp [generate_append_tlist_main] at h
    | _ :: _, [], _ => simp [generate_append_tlist_main] at h
    | _ :: _, _ :: _, [] => simp [generate_append_tlist_main] at h
    | tm :: tms, cc :: ccs, rt :: rts =>
      rw [generate_append_tlist_main, List.mem_cons] at h
      rcases h with h | h
      · subst h; rfl
      · exact ih tms ccs rts (start + 1) te h

/-- Installing sortgrouprefs does not change hashability: the zipped copy
of the groupClauses list is hashable iff the original prefix is, when the
tlist covers every clause. -/
theorem generate_setop_grouplist_hashable :
    ∀ (gC : List SortGroupClause) (tles : List TargetEntry),
      gC.length ≤ tles.length →
      grouping_is_hashable (List.zipWith
        (fun sgc tle => { sgc with tleSortGroupRef := tle.ressortgroupref })
        gC tles) = grouping_is_hashable gC := by
  intro gC
  induction gC with
  | nil => intro tles h; rfl
  | cons g gs ih =>
    intro tles h
    match tles with
    | [] => simp at h
    | t :: tles =>
      simp only [List.zipWith_cons_cons, grouping_is_hashable, List.all_cons]
      rw [← grouping_is_hashable, ← grouping_is_hashable,
        ih tles (by simpa using h)]

/-- C4: `generate_recursion_path` raises the feature-not-supported error
"could not implement recursive UNION" iff the operation is a non-ALL UNION
whose grouping clauses are not hashable; a recursive UNION ALL sets up no
duplicate elimination (empty grouping list, group estimate 0); and a
non-UNION recursive set operation raises the internal error "only UNION
queries can be recursive". -/
theorem generate_recursion_path_correct (setOp : SetOpStmtM) (lrows rrows : ℚ)
    (ltl rtl refs : List TargetEntry)
    (hccs : setOp.colCollations.length = setOp.colTypes.length)
    (hrefs : refs.length = setOp.colTypes.length)
    (hgc : setOp.groupClauses.length = setOp.colTypes.length) :
    (generate_recursion_path setOp lrows rrows ltl rtl refs =
        .error (.featureNotSupported "could not implement recursive UNION") ↔
      setOp.op = SetOpKind.union ∧ setOp.all = false ∧
        grouping_is_hashable setOp.groupClauses = false) ∧
    (setOp.op = SetOpKind.union ∧ setOp.all = true →
      generate_recursion_path setOp lrows rrows ltl rtl refs =
        .ok ⟨generate_append_tlist setOp.colTypes setOp.colCollations false
              [ltl, rtl] refs, [], 0⟩) ∧
    (setOp.op ≠ SetOpKind.union →
      generate_recursion_path setOp lrows rrows ltl rtl refs =
        .error (.internalError "only UNION queries can be recursive")) := by
  have hkey : grouping_is_hashable (generate_setop_grouplist setOp
      (generate_append_tlist setOp.colTypes setOp.colCollations false
        [ltl, rtl] refs)) = grouping_is_hashable setOp.groupClauses := by
    rw [generate_setop_grouplist]
    rw [generate_append_tlist]
    simp only [Bool.false_eq_true, if_false]
    rw [List.filter_eq_self.mpr (by
      intro te hte
      rw [generate_append_tlist_main_nonjunk _ _ _ _ _ te hte]
      rfl)]
    apply generate_setop_grouplist_hashable
    rw [generate_append_tlist_main_length _ _ _ _ _
      (computeColTypmods_length _ _) hccs hrefs, hgc]
  refine ⟨?_, ?_, ?_⟩
  · by_cases hop : setOp.op = SetOpKind.union
    · rw [generate_recursion_path, if_neg (by simp [hop])]
      by_cases hall : setOp.all = true
      · simp only [hall, if_true]
        constructor
        · intro h; exact absurd h (by simp)
        · rintro ⟨-, h, -⟩; exact absurd h (by decide)
      · simp only [Bool.not_eq_true] at hall
        simp only [hall, Bool.false_eq_true, if_false]
        by_cases hh : grouping_is_hashable setOp.groupClauses = true
        · rw [if_neg (by rw [hkey, hh]; simp)]
          constructor
          · intro h; exact absurd h (by simp)
          · rintro ⟨-, -, h⟩; exact absurd hh (by simp [h])
        · simp only [Bool.not_eq_true] at hh
          rw [if_pos (by rw [hkey, hh]; rfl)]
          exact ⟨fun _ => ⟨hop, trivial, hh⟩, fun _ => rfl⟩
    · rw [generate_recursion_path, if_pos hop]
      constructor
      · intro h; exact absurd h (by simp)
      · rintro ⟨h, -, -⟩; exact absurd h hop
  · rintro ⟨hop, hall⟩
    rw [generate_recursion_path, if_neg (by simp [hop]), if_pos hall]
  · intro hop
    rw [generate_recursion_path, if_pos hop]

/-- Witness for C4: a recursive UNION ALL over one int column builds its
Append tlist with an empty grouping list and a zero group estimate. -/
theorem generate_recursion_path_correct_witness :
    generate_recursion_path ⟨SetOpKind.union, true, [23], [0], [⟨0, true, true⟩]⟩
        10 20 [⟨.const 23 (-1) 0 1, 1, "a", false, 1⟩]
        [⟨.const 23 (-1) 0 2, 1, "a", false, 1⟩]
        [⟨.const 23 (-1) 0 1, 1, "a", false, 0⟩] =
      .ok ⟨generate_append_tlist [23] [0] false
            [[⟨.const 23 (-1) 0 1, 1, "a", false, 1⟩],
             [⟨.const 23 (-1) 0 2, 1, "a", false, 1⟩]]
            [⟨.const 23 (-1) 0 1, 1, "a", false, 0⟩], [], 0⟩ :=
  (generate_recursion_path_correct
    ⟨SetOpKind.union, true, [23], [0], [⟨0, true, true⟩]⟩ 10 20
    [⟨.const 23 (-1) 0 1, 1, "a", false, 1⟩]
    [⟨.const 23 (-1) 0 2, 1, "a", false, 1⟩]
    [⟨.const 23 (-1) 0 1, 1, "a", false, 0⟩]
    rfl rfl rfl).2.1 ⟨rfl, rfl⟩

/-- The partition loop: `has_child` is false iff every partition at this
level is another session's temp table, in which case nothing at all is
added to the append-rel list. -/
theorem expand_partitioned_children_spec :
    ∀ (parentOid : Nat) (parts : List PartRel),
      ((expand_partitioned_children parentOid parts).1 = false ↔
        parts.all PartRel.isOtherTemp = true) ∧
      (parts.all PartRel.isOtherTemp = true →
        (expand_partitioned_children parentOid parts).2 = []) := by
  intro parentOid parts
  induction parts with
  | nil =>
    rw [expand_partitioned_children.eq_def]
    exact ⟨by simp, fun _ => rfl⟩
  | cons p rest ih =>
    match p with
    | PartRel.mk oid temp sub =>
      rw [expand_partitioned_children.eq_def]
      dsimp only
      by_cases ht : temp = true
      · subst ht
        rw [if_pos rfl]
        constructor
        · simp only [List.all_cons, PartRel.isOtherTemp, Bool.true_and]
          exact ih.1
        · intro hall
          simp only [List.all_cons, PartRel.isOtherTemp, Bool.true_and] at hall
          exact ih.2 hall
      · simp only [Bool.not_eq_true] at ht
        subst ht
        rw [if_neg (by simp)]
        constructor
        · simp [PartRel.isOtherTemp]
        · intro hall
          simp [PartRel.isOtherTemp] at hall

/-- Expanding the partitioned parent itself adds no AppendRelInfo: the
parent-as-child RTE is partitioned with `inh = false`. -/
theorem expand_single_self_partitioned (parentOid : Nat) :
    expand_single_inheritance_child parentOid parentOid true = none := by
  simp [expand_single_inheritance_child]

/-- `expand_partitioned_rtentry` returns the partition loop's `has_child`
flag and its AppendRelInfos: the parent's own expansion contributes none. -/
theorem expand_partitioned_rtentry_eq (parentOid : Nat) (parts : List PartRel) :
    expand_partitioned_rtentry parentOid parts =
      ((expand_partitioned_children parentOid parts).1,
       (expand_partitioned_children parentOid parts).2) := by
  simp only [expand_partitioned_rtentry, expand_single_self_partitioned,
    Option.toList_none, List.nil_append]

/-- A non-parent member of a classic inheritance set always yields an
AppendRelInfo when expanded. -/
theorem expand_single_nonparent (parentOid childOid : Nat) (p : Bool)
    (h : childOid ≠ parentOid) :
    expand_single_inheritance_child parentOid childOid p =
      some ⟨parentOid, childOid⟩ := by
  cases p <;> simp [expand_single_inheritance_child, h]

/-- In the classic-inheritance loop, the non-parent children contribute one
AppendRelInfo per non-temp member. -/
theorem expand_classic_tail (relid : Nat) :
    ∀ (tl : List ChildDesc), (∀ c ∈ tl, c.oid ≠ relid) →
      tl.filterMap (fun c =>
          if c.oid ≠ relid && c.isOtherTemp then none
          else expand_single_inheritance_child relid c.oid c.isPartitioned) =
        (tl.filter (fun c => !c.isOtherTemp)).map
          (fun c => (⟨relid, c.oid⟩ : AppInfoRef)) := by
  intro tl
  induction tl with
  | nil => intro _; rfl
  | cons c cs ihc =>
    intro htl
    have hc := htl c (by simp)
    by_cases hct : c.isOtherTemp = true
    · rw [List.filterMap_cons, if_pos (by simp [hc, hct]),
        List.filter_cons, if_neg (by simp [hct])]
      exact ihc (fun d hd2 => htl d (by simp [hd2]))
    · simp only [Bool.not_eq_true] at hct
      rw [List.filterMap_cons, if_neg (by simp [hct]),
        expand_single_nonparent _ _ _ hc, List.filter_cons,
        if_pos (by simp [hct]), List.map_cons,
        ihc (fun d hd2 => htl d (by simp [hd2]))]

/-- C7 counterexample: the claim's list of degrade situations is not
exhaustive.  A partitioned relation (partdesc present) whose only
partition is another session's temp table degrades — `inh` is cleared and
no AppendRelInfo is added — although it has subclasses, the enumeration
returned two members, and the non-partitioned inheritance branch was not
taken. -/
theorem expand_inherited_rtentry_cex :
    expand_inherited_rtentry ⟨true, RTEKind.relation, 1⟩
        ⟨true, [⟨1, false, false⟩, ⟨2, true, false⟩],
         some [PartRel.mk 2 true none]⟩ =
      ⟨false, []⟩ ∧
    (⟨true, [⟨1, false, false⟩, ⟨2, true, false⟩],
      some [PartRel.mk 2 true none]⟩ : ParentRel).hasSubclass = true ∧
    ([(⟨1, false, false⟩ : ChildDesc), ⟨2, true, false⟩]).length = 2 ∧
    (some [PartRel.mk 2 true none] ≠ (none : Option (List PartRel))) := by
  refine ⟨?_, rfl, rfl, by simp⟩
  have h0 : expand_partitioned_children 1 ([] : List PartRel) = (false, []) := by
    rw [expand_partitioned_children.eq_def]
  have h1 : expand_partitioned_children 1 [PartRel.mk 2 true none] = (false, []) := by
    rw [expand_partitioned_children.eq_def]
    dsimp only
    rw [if_pos rfl, h0]
  rw [expand_inherited_rtentry]
  simp only [expand_partitioned_rtentry_eq, h1]
  rfl

/-- C7 (amended): `expand_inherited_rtentry` degrades silently — clears the
RTE's `inh` flag and adds no AppendRelInfo — in exactly these situations:
the relation has no subclasses; the descendant enumeration returns fewer
than two members; in the non-partitioned inheritance branch, every child
other than the parent itself is another session's temp table (leaving
fewer than two AppendRelInfos); or, in the partitioned branch, every
partition is another session's temp table.  Skipped temp tables never
raise an error (this path of the embedding has no error outcome). -/
theorem expand_inherited_rtentry_amended (rte : RteM) (rel : ParentRel)
    (hinh : rte.inh = true) (hkind : rte.rtekind = RTEKind.relation)
    (hd : ChildDesc) (tl : List ChildDesc)
    (hOIDs : rel.inhOIDs = hd :: tl) (hhd_oid : hd.oid = rte.relid)
    (hhd_part : hd.isPartitioned = false)
    (htl : ∀ c ∈ tl, c.oid ≠ rte.relid) :
    expand_inherited_rtentry rte rel = ⟨false, []⟩ ↔
      rel.hasSubclass = false ∨ rel.inhOIDs.length < 2 ∨
      (rel.partdesc = none ∧ tl.all (fun c => c.isOtherTemp) = true) ∨
      (∃ parts, rel.partdesc = some parts ∧
        parts.all PartRel.isOtherTemp = true) := by
  rw [expand_inherited_rtentry]
  rw [if_neg (by simp [hinh]), if_neg (by simp [hkind])]
  by_cases hsub : rel.hasSubclass = true
  · rw [if_neg (by simp [hsub])]
    by_cases hlen : rel.inhOIDs.length < 2
    · rw [if_pos hlen]
      simp [hlen]
    · rw [if_neg hlen]
      cases hpd : rel.partdesc with
      | some parts =>
        have hspec := expand_partitioned_children_spec rte.relid parts
        simp only [expand_partitioned_rtentry_eq]
        constructor
        · intro h
          have h1 : (expand_partitioned_children rte.relid parts).1 = false :=
            congrArg ExpandResult.inh h
          exact Or.inr (Or.inr (Or.inr ⟨parts, rfl, hspec.1.mp h1⟩))
        · rintro (h | h | ⟨h, -⟩ | ⟨parts2, hp2, hall⟩)
          · exact absurd hsub (by simp [h])
          · exact absurd h hlen
          · exact absurd h (by simp)
          · obtain rfl : parts2 = parts := (Option.some.inj hp2).symm
            rw [ExpandResult.mk.injEq]
            exact ⟨hspec.1.mpr hall, hspec.2 hall⟩
      | none =>
        rw [hOIDs]
        have hhd2 : expand_single_inheritance_child rte.relid hd.oid
            hd.isPartitioned = some ⟨rte.relid, hd.oid⟩ := by
          rw [hhd_part]
          simp [expand_single_inheritance_child]
        have hmap : (hd :: tl).filterMap (fun c =>
            if c.oid ≠ rte.relid && c.isOtherTemp then none
            else expand_single_inheritance_child rte.relid c.oid c.isPartitioned) =
            (⟨rte.relid, hd.oid⟩ : AppInfoRef) ::
              (tl.filter (fun c => !c.isOtherTemp)).map
                (fun c => (⟨rte.relid, c.oid⟩ : AppInfoRef)) := by
          rw [List.filterMap_cons, if_neg (by simp [hhd_oid]), hhd2,
            expand_classic_tail rte.relid tl htl]
        rw [hmap]
        by_cases hall : tl.all (fun c => c.isOtherTemp) = true
        · have hflt : tl.filter (fun c => !c.isOtherTemp) = [] := by
            rw [List.filter_eq_nil]
            intro c hc
            have := List.all_eq_true.mp hall c hc
            simp [this]
          rw [if_pos (by simp [hflt])]
          simp [hall]
        · have hflt : (tl.filter (fun c => !c.isOtherTemp)).length ≠ 0 := by
            intro hz
            apply hall
            rw [List.all_eq_true]
            intro c hc
            by_contra hct
            have hmem : c ∈ tl.filter (fun c => !c.isOtherTemp) :=
              List.mem_filter.mpr ⟨hc, by
                simp only [Bool.not_eq_true] at hct
                simp [hct]⟩
            rw [List.length_eq_zero.mp hz] at hmem
            simp at hmem
          rw [if_neg (by simp only [List.length_cons, List.length_map]; omega)]
          constructor
          · intro h
            exact absurd (congrArg ExpandResult.inh h) (by simp)
          · rintro (h | h | ⟨-, h⟩ | ⟨parts2, hp2, -⟩)
            · exact absurd hsub (by simp [h])
            · rw [hOIDs] at hlen; exact absurd h hlen
            · exact absurd h hall
            · exact absurd hp2 (by simp)
  · simp only [Bool.not_eq_true] at hsub
    rw [if_pos (by simp [hsub])]
    simp [hsub]

/-- Witness for the amended C7: classic inheritance where the only child is
another session's temp table degrades to the no-inheritance case. -/
theorem expand_inherited_rtentry_amended_witness :
    expand_inherited_rtentry ⟨true, RTEKind.relation, 1⟩
        ⟨true, [⟨1, false, false⟩, ⟨2, true, false⟩], none⟩ =
      ⟨false, []⟩ :=
  (expand_inherited_rtentry_amended ⟨true, RTEKind.relation, 1⟩
    ⟨true, [⟨1, false, false⟩, ⟨2, true, false⟩], none⟩ rfl rfl
    ⟨1, false, false⟩ [⟨2, true, false⟩] rfl rfl rfl
    (by intro c hc; simp only [List.mem_singleton] at hc; subst hc; decide)).mpr
    (Or.inr (Or.inr (Or.inl ⟨rfl, rfl⟩)))

/-- C2: in `generate_nonunion_path`, EXCEPT always keeps the planned left
child first (flag 0 first) regardless of the group estimates; INTERSECT
puts the left child first iff `dLeftGroups <= dRightGroups`, else the right
child first (flag 1 first); the group-count basis handed to the hash-vs-
sort chooser and recorded in the SetOp node is `dLeftGroups` for EXCEPT and
`min dLeftGroups dRightGroups` for INTERSECT; and a Sort stage sits below
the SetOp step exactly when the hashed option was rejected. -/
theorem generate_nonunion_path_correct (cfg : PlannerConfig) (cm : CostModel)
    (tf : ℚ) (op : SetOpStmtM) (lpath rpath : PathT) (linfo rinfo : PathInfo)
    (ltl rtl : List TargetEntry) (dL dR : ℚ) (refs : List TargetEntry)
    (r : NonUnionOut)
    (hop : op.op ≠ SetOpKind.union)
    (h : generate_nonunion_path cfg cm tf op lpath rpath linfo rinfo
      ltl rtl dL dR refs = .ok r) :
    (op.op = SetOpKind.except_ → r.pathlist = [lpath, rpath] ∧ r.firstFlag = 0) ∧
    (op.op = SetOpKind.intersect →
      (dL ≤ dR → r.pathlist = [lpath, rpath] ∧ r.firstFlag = 0) ∧
      (¬dL ≤ dR → r.pathlist = [rpath, lpath] ∧ r.firstFlag = 1)) ∧
    (∀ use_hash, r.useHash = some use_hash →
      r.dNumGroups = (if op.op = SetOpKind.except_ then dL else min dL dR) ∧
      r.pNumGroups = some r.dNumGroups ∧
      r.path = PathT.setop
        (if use_hash then PathT.append r.pathlist
         else PathT.sort (PathT.append r.pathlist))
        (if op.op = SetOpKind.intersect then
           (if op.all then SetOpCmd.intersectAllCmd else SetOpCmd.intersectCmd)
         else
           (if op.all then SetOpCmd.exceptAllCmd else SetOpCmd.exceptCmd))
        (if use_hash then SetOpStrategy.hashed else SetOpStrategy.sorted)
        (op.colTypes.length + 1)
        (if use_hash then r.firstFlag else -1)
        r.dNumGroups r.dNumOutputRows) := by
  by_cases hord : (op.op = SetOpKind.except_ ∨ dL ≤ dR)
  · simp only [generate_nonunion_path, if_pos hord] at h
    by_cases hemp : (generate_setop_grouplist op (generate_append_tlist
        op.colTypes op.colCollations true [ltl, rtl] refs)).isEmpty = true
    · simp only [hemp, if_true, Except.ok.injEq] at h
      subst h
      exact ⟨fun _ => ⟨rfl, rfl⟩,
        fun hint => ⟨fun _ => ⟨rfl, rfl⟩,
          fun hnle => absurd (hord.resolve_left (by simp [hint])) hnle⟩,
        fun uh hu => absurd hu (by simp)⟩
    · simp only [hemp, Bool.false_eq_true, if_false] at h
      cases hch : choose_hashed_setop cfg cm tf
          (generate_setop_grouplist op (generate_append_tlist
            op.colTypes op.colCollations true [ltl, rtl] refs))
          (cm.append_info [linfo, rinfo] (generate_append_tlist
            op.colTypes op.colCollations true [ltl, rtl] refs))
          (if op.op = SetOpKind.except_ then
            (dL, if op.all then linfo.rows else dL)
           else (min dL dR,
             if op.all then min linfo.rows rinfo.rows else min dL dR)).1
          (if op.op = SetOpKind.except_ then
            (dL, if op.all then linfo.rows else dL)
           else (min dL dR,
             if op.all then min linfo.rows rinfo.rows else min dL dR)).2
          (if op.op = SetOpKind.intersect then "INTERSECT" else "EXCEPT") with
      | error e => rw [hch] at h; simp at h
      | ok use_hash =>
        rw [hch] at h
        cases hopk : op.op with
        | union => exact absurd hopk hop
        | intersect =>
          simp only [hopk, Except.ok.injEq] at h
          subst h
          refine ⟨fun hx => absurd hx (by simp),
            fun _ => ⟨fun _ => ⟨rfl, rfl⟩,
              fun hnle => absurd (hord.resolve_left (by simp [hopk])) hnle⟩, ?_⟩
          intro uh hu
          simp only [Option.some.injEq] at hu
          subst hu
          exact ⟨by simp [hopk], rfl, by simp [hopk]⟩
        | except_ =>
          simp only [hopk, Except.ok.injEq] at h
          subst h
          refine ⟨fun _ => ⟨rfl, rfl⟩,
            fun hint => absurd hint (by simp), ?_⟩
          intro uh hu
          simp only [Option.some.injEq] at hu
          subst hu
          exact ⟨by simp [hopk], rfl, by simp [hopk]⟩
  · simp only [generate_nonunion_path, if_neg hord] at h
    have hne : op.op ≠ SetOpKind.except_ := fun hx => hord (Or.inl hx)
    have hnle : ¬dL ≤ dR := fun hx => hord (Or.inr hx)
    by_cases hemp : (generate_setop_grouplist op (generate_append_tlist
        op.colTypes op.colCollations true [rtl, ltl] refs)).isEmpty = true
    · simp only [hemp, if_true, Except.ok.injEq] at h
      subst h
      exact ⟨fun hx => absurd hx hne,
        fun _ => ⟨fun hle => absurd hle hnle, fun _ => ⟨rfl, rfl⟩⟩,
        fun uh hu => absurd hu (by simp)⟩
    · simp only [hemp, Bool.false_eq_true, if_false] at h
      cases hch : choose_hashed_setop cfg cm tf
          (generate_setop_grouplist op (generate_append_tlist
            op.colTypes op.colCollations true [rtl, ltl] refs))
          (cm.append_info [rinfo, linfo] (generate_append_tlist
            op.colTypes op.colCollations true [rtl, ltl] refs))
          (if op.op = SetOpKind.except_ then
            (dL, if op.all then linfo.rows else dL)
           else (min dL dR,
             if op.all then min linfo.rows rinfo.rows else min dL dR)).1
          (if op.op = SetOpKind.except_ then
            (dL, if op.all then linfo.rows else dL)
           else (min dL dR,
             if op.all then min linfo.rows rinfo.rows else min dL dR)).2
          (if op.op = SetOpKind.intersect then "INTERSECT" else "EXCEPT") with
      | error e => rw [hch] at h; simp at h
      | ok use_hash =>
        rw [hch] at h
        cases hopk : op.op with
        | union => exact absurd hopk hop
        | except_ => exact absurd hopk hne
        | intersect =>
          simp only [hopk, Except.ok.injEq] at h
          subst h
          refine ⟨fun hx => absurd hx (by simp),
            fun _ => ⟨fun hle => absurd hle hnle, fun _ => ⟨rfl, rfl⟩⟩, ?_⟩
          intro uh hu
          simp only [Option.some.injEq] at hu
          subst hu
          exact ⟨by simp [hopk], rfl, by simp [hopk]⟩

/-- Witness for C2: an EXCEPT with an empty column list hits the punt
branch; the left child is placed first and flag 0 first. -/
theorem generate_nonunion_path_correct_witness :
    generate_nonunion_path cfgTriv cmTriv 0
        ⟨SetOpKind.except_, false, [], [], []⟩
        (PathT.child 0) (PathT.child 1) pInfoTriv pInfoTriv [] [] 1 2 [] =
      .ok ⟨PathT.append [PathT.child 0, PathT.child 1], none,
           [PathT.child 0, PathT.child 1], 0, none, 0, 0⟩ ∧
    ([PathT.child 0, PathT.child 1] = [PathT.child 0, PathT.child 1] ∧
      (0 : Int) = 0) :=
  ⟨rfl,
   (generate_nonunion_path_correct cfgTriv cmTriv 0
     ⟨SetOpKind.except_, false, [], [], []⟩
     (PathT.child 0) (PathT.child 1) pInfoTriv pInfoTriv [] [] 1 2 []
     ⟨PathT.append [PathT.child 0, PathT.child 1], none,
      [PathT.child 0, PathT.child 1], 0, none, 0, 0⟩
     (by simp) rfl).1 rfl⟩

/-- Pointwise value of one `updateTypmods` pass. -/
theorem updateTypmods_getD (f : Bool) :
    ∀ (i : Nat) (cts : List Oid) (acc : List Int) (es : List (Oid × Int)),
      i < cts.length → i < acc.length → i < es.length →
      (updateTypmods f cts acc es).getD i 0 =
        (if (es.getD i (0, 0)).1 = cts.getD i 0 then
          (if f then (es.getD i (0, 0)).2
           else if (es.getD i (0, 0)).2 ≠ acc.getD i 0 then -1 else acc.getD i 0)
         else -1) := by
  intro i
  induction i with
  | zero =>
    intro cts acc es h1 h2 h3
    match cts, acc, es with
    | ct :: cts, a :: accs, (ty, tm) :: rest => rfl
  | succ i ih =>
    intro cts acc es h1 h2 h3
    match cts, acc, es with
    | ct :: cts, a :: accs, (ty, tm) :: rest =>
      simp only [updateTypmods, List.getD_cons_succ]
      exact ih cts accs rest (by simpa using h1) (by simpa using h2)
        (by simpa using h3)

/-- Characterization of the later-tlists fold in `computeColTypmods`: the
running slot survives iff every remaining tlist agrees with the declared
type and with the running value; -1 is absorbing. -/
theorem computeColTypmods_fold_spec (cts : List Oid) (i : Nat)
    (hi : i < cts.length) :
    ∀ (rest : List (List TargetEntry)) (acc : List Int),
      acc.length = cts.length →
      (∀ t ∈ rest, (tlistTypes t).length = cts.length) →
      ((∀ t ∈ rest, ((tlistTypes t).getD i (0, 0)).1 = cts.getD i 0 ∧
          ((tlistTypes t).getD i (0, 0)).2 = acc.getD i 0) →
        (rest.foldl (fun acc t2 => updateTypmods false cts acc (tlistTypes t2))
          acc).getD i 0 = acc.getD i 0) ∧
      (acc.getD i 0 = -1 →
        (rest.foldl (fun acc t2 => updateTypmods false cts acc (tlistTypes t2))
          acc).getD i 0 = -1) ∧
      ((∃ t ∈ rest, ¬(((tlistTypes t).getD i (0, 0)).1 = cts.getD i 0 ∧
          ((tlistTypes t).getD i (0, 0)).2 = acc.getD i 0)) →
        (rest.foldl (fun acc t2 => updateTypmods false cts acc (tlistTypes t2))
          acc).getD i 0 = -1) := by
  intro rest
  induction rest with
  | nil =>
    intro acc hacc hlens
    refine ⟨fun _ => rfl, fun h => h, ?_⟩
    rintro ⟨t, ht, -⟩
    simp at ht
  | cons t rest ih =>
    intro acc hacc hlens
    have hlt : (tlistTypes t).length = cts.length := hlens t (by simp)
    have hstep := updateTypmods_getD false i cts acc (tlistTypes t)
      hi (by omega) (by omega)
    have hlen1 : (updateTypmods false cts acc (tlistTypes t)).length =
        cts.length := by rw [updateTypmods_length]; exact hacc
    have ih2 := ih (updateTypmods false cts acc (tlistTypes t)) hlen1
      (fun u hu => hlens u (by simp [hu]))
    simp only [List.foldl_cons]
    by_cases hagree : ((tlistTypes t).getD i (0, 0)).1 = cts.getD i 0 ∧
        ((tlistTypes t).getD i (0, 0)).2 = acc.getD i 0
    · have hval : (updateTypmods false cts acc (tlistTypes t)).getD i 0 =
          acc.getD i 0 := by
        rw [hstep, if_pos hagree.1, if_neg (by simp), if_neg (not_ne_iff.mpr hagree.2)]
      refine ⟨?_, ?_, ?_⟩
      · intro hall
        rw [ih2.1 ?_, hval]
        intro u hu
        have := hall u (by simp [hu])
        rw [hval]
        exact this
      · intro hneg
        exact ih2.2.1 (by rw [hval]; exact hneg)
      · rintro ⟨u, hu, hnagree⟩
        simp only [List.mem_cons] at hu
        rcases hu with rfl | hu
        · exact absurd hagree hnagree
        · exact ih2.2.2 ⟨u, hu, by rw [hval]; exact hnagree⟩
    · have hval : (updateTypmods false cts acc (tlistTypes t)).getD i 0 = -1 := by
        rw [hstep]
        by_cases h1 : ((tlistTypes t).getD i (0, 0)).1 = cts.getD i 0
        · rw [if_pos h1, if_neg (by simp)]
          have h2 : ((tlistTypes t).getD i (0, 0)).2 ≠ acc.getD i 0 := by
            intro h2; exact hagree ⟨h1, h2⟩
          rw [if_pos h2]
        · rw [if_neg h1]
      refine ⟨?_, ?_, ?_⟩
      · intro hall
        exact absurd (hall t (by simp)) hagree
      · intro _
        exact ih2.2.1 hval
      · intro _
        exact ih2.2.1 hval

/-- Pointwise entries of the Append-tlist main loop: the i-th entry is a
varno-0 Var with the i-th declared type, computed typmod and collation. -/
theorem generate_append_tlist_main_getD :
    ∀ (i : Nat) (cts : List Oid) (tms : List Int) (ccs : List Oid)
      (rts : List TargetEntry) (start : Nat),
      i < cts.length → i < tms.length → i < ccs.length → i < rts.length →
      (generate_append_tlist_main start cts tms ccs rts).get? i =
        some ⟨.var (makeVar 0 (((start + i : Nat) : Int)) (cts.getD i 0)
                (tms.getD i 0) (ccs.getD i 0) 0),
              start + i, (rts.getD i default).resname, false, start + i⟩ := by
  intro i
  induction i with
  | zero =>
    intro cts tms ccs rts start h1 h2 h3 h4
    match cts, tms, ccs, rts with
    | ct :: cts, tm :: tms, cc :: ccs, rt :: rts => rfl
  | succ i ih =>
    intro cts tms ccs rts start h1 h2 h3 h4
    match cts, tms, ccs, rts with
    | ct :: cts, tm :: tms, cc :: ccs, rt :: rts =>
      simp only [generate_append_tlist_main, List.get?_cons_succ,
        List.getD_cons_succ]
      rw [ih cts tms ccs rts (start + 1) (by simpa using h1)
        (by simpa using h2) (by simpa using h3) (by simpa using h4)]
      have : start + 1 + i = start + (i + 1) := by omega
      rw [this]

/-- The i-th entry of `generate_append_tlist` carries the i-th computed
typmod. -/
theorem generate_append_tlist_typmod (cts ccs : List Oid) (flag : Bool)
    (tlists : List (List TargetEntry)) (refs : List TargetEntry) (i : Nat)
    (hi : i < cts.length) (hccs : ccs.length = cts.length)
    (hrefs : refs.length = cts.length) :
    ∃ te, (generate_append_tlist cts ccs flag tlists refs).get? i = some te ∧
      exprTypmod te.expr = (computeColTypmods cts tlists).getD i 0 := by
  have htms : (computeColTypmods cts tlists).length = cts.length :=
    computeColTypmods_length cts tlists
  have hmain := generate_append_tlist_main_getD i cts
    (computeColTypmods cts tlists) ccs refs 1 hi (by omega) (by omega) (by omega)
  have hlenm : (generate_append_tlist_main 1 cts (computeColTypmods cts tlists)
      ccs refs).length = cts.length :=
    generate_append_tlist_main_length cts _ ccs refs 1 htms hccs hrefs
  rw [generate_append_tlist]
  cases flag with
  | false =>
    simp only [Bool.false_eq_true, if_false]
    exact ⟨_, hmain, rfl⟩
  | true =>
    simp only [if_true]
    have hh : (generate_append_tlist_main 1 cts (computeColTypmods cts tlists)
        ccs refs ++
        [makeTargetEntry (.var (makeVar 0 (((generate_append_tlist_main 1 cts
            (computeColTypmods cts tlists) ccs refs).length + 1 : Nat) : Int)
          INT4OID (-1) InvalidOid 0))
          ((generate_append_tlist_main 1 cts (computeColTypmods cts tlists)
            ccs refs).length + 1) "flag" true]).get? i =
        some ⟨.var (makeVar 0 (((1 + i : Nat) : Int)) (cts.getD i 0)
                ((computeColTypmods cts tlists).getD i 0) (ccs.getD i 0) 0),
              1 + i, (refs.getD i default).resname, false, 1 + i⟩ := by
      rw [List.get?_append (by omega)]
      exact hmain
    exact ⟨_, hh, rfl⟩

/-- C5: for every column position of `generate_append_tlist`, the generated
Var carries the common typmod when every input tlist's non-junk entry at
that position has the declared column type and the first input's typmod,
and carries -1 whenever any input entry disagrees in type with the declared
column type or in typmod with the first input's typmod. -/
theorem generate_append_tlist_typmod_correct (cts ccs : List Oid) (flag : Bool)
    (t0 : List TargetEntry) (rest : List (List TargetEntry))
    (refs : List TargetEntry) (i : Nat)
    (hi : i < cts.length) (hccs : ccs.length = cts.length)
    (hrefs : refs.length = cts.length)
    (hlen0 : (tlistTypes t0).length = cts.length)
    (hlenr : ∀ t ∈ rest, (tlistTypes t).length = cts.length) :
    ((∀ t ∈ t0 :: rest, ((tlistTypes t).getD i (0, 0)).1 = cts.getD i 0 ∧
        ((tlistTypes t).getD i (0, 0)).2 = ((tlistTypes t0).getD i (0, 0)).2) →
      ∃ te, (generate_append_tlist cts ccs flag (t0 :: rest) refs).get? i =
          some te ∧
        exprTypmod te.expr = ((tlistTypes t0).getD i (0, 0)).2) ∧
    ((∃ t ∈ t0 :: rest, ((tlistTypes t).getD i (0, 0)).1 ≠ cts.getD i 0 ∨
        ((tlistTypes t).getD i (0, 0)).2 ≠ ((tlistTypes t0).getD i (0, 0)).2) →
      ∃ te, (generate_append_tlist cts ccs flag (t0 :: rest) refs).get? i =
          some te ∧
        exprTypmod te.expr = -1) := by
  obtain ⟨te, hte, htm⟩ :=
    generate_append_tlist_typmod cts ccs flag (t0 :: rest) refs i hi hccs hrefs
  have hfirst : (updateTypmods true cts (List.replicate cts.length (-1))
      (tlistTypes t0)).getD i 0 =
      (if ((tlistTypes t0).getD i (0, 0)).1 = cts.getD i 0 then
        ((tlistTypes t0).getD i (0, 0)).2 else -1) := by
    rw [updateTypmods_getD true i cts _ _ hi (by simp [hi]) (by omega)]
    by_cases h1 : ((tlistTypes t0).getD i (0, 0)).1 = cts.getD i 0
    · rw [if_pos h1, if_pos h1]; rfl
    · rw [if_neg h1, if_neg h1]
  have hacc0len : (updateTypmods true cts (List.replicate cts.length (-1))
      (tlistTypes t0)).length = cts.length := by
    rw [updateTypmods_length]; simp
  have hfold := computeColTypmods_fold_spec cts i hi rest
    (updateTypmods true cts (List.replicate cts.length (-1)) (tlistTypes t0))
    hacc0len hlenr
  have hcc : (computeColTypmods cts (t0 :: rest)).getD i 0 =
      (rest.foldl (fun acc t2 => updateTypmods false cts acc (tlistTypes t2))
        (updateTypmods true cts (List.replicate cts.length (-1))
          (tlistTypes t0))).getD i 0 := by
    rw [computeColTypmods]
  constructor
  · intro hall
    refine ⟨te, hte, ?_⟩
    rw [htm, hcc]
    have h0 := hall t0 (by simp)
    have hv0 : (updateTypmods true cts (List.replicate cts.length (-1))
        (tlistTypes t0)).getD i 0 = ((tlistTypes t0).getD i (0, 0)).2 := by
      rw [hfirst, if_pos h0.1]
    rw [hfold.1 ?_, hv0]
    intro t ht
    have := hall t (by simp [ht])
    rw [hv0]
    exact this
  · rintro ⟨t, ht, hdis⟩
    refine ⟨te, hte, ?_⟩
    rw [htm, hcc]
    simp only [List.mem_cons] at ht
    by_cases h1 : ((tlistTypes t0).getD i (0, 0)).1 = cts.getD i 0
    · have hv0 : (updateTypmods true cts (List.replicate cts.length (-1))
          (tlistTypes t0)).getD i 0 = ((tlistTypes t0).getD i (0, 0)).2 := by
        rw [hfirst, if_pos h1]
      rcases ht with rfl | ht
      · rcases hdis with hdis | hdis
        · exact absurd h1 hdis
        · exact absurd rfl hdis
      · refine hfold.2.2 ⟨t, ht, ?_⟩
        rw [hv0]
        intro hagree
        rcases hdis with hdis | hdis
        · exact hdis hagree.1
        · exact hdis hagree.2
    · have hv0 : (updateTypmods true cts (List.replicate cts.length (-1))
          (tlistTypes t0)).getD i 0 = -1 := by
        rw [hfirst, if_neg h1]
      exact hfold.2.1 hv0

/-- Witness for C5: two single-column inputs, one with typmod 7 and one
with typmod 9, force the Append Var's typmod to -1. -/
theorem generate_append_tlist_typmod_correct_witness :
    ∃ te, (generate_append_tlist [23] [0] false
        [[⟨.const 23 7 0 1, 1, "a", false, 1⟩],
         [⟨.const 23 9 0 2, 1, "a", false, 1⟩]]
        [⟨.const 23 (-1) 0 1, 1, "a", false, 0⟩]).get? 0 = some te ∧
      exprTypmod te.expr = -1 :=
  (generate_append_tlist_typmod_correct [23] [0] false
    [⟨.const 23 7 0 1, 1, "a", false, 1⟩]
    [[⟨.const 23 9 0 2, 1, "a", false, 1⟩]]
    [⟨.const 23 (-1) 0 1, 1, "a", false, 0⟩] 0
    (by decide) rfl rfl rfl
    (by intro t ht
        simp only [List.mem_singleton] at ht
        subst ht
        rfl)).2
    ⟨[⟨.const 23 9 0 2, 1, "a", false, 1⟩], by simp, Or.inr (by decide)⟩

end PrepUnion
